import Mathlib

/-!
Shallow embedding of `clean-html.py` (HTML → clean XML converter) and
verification of the specification's claims about it.

Python strings are modelled as `List Char` (`Str`); the ASCII behaviour of
`str.lower`, `str.strip`, `str.isdigit`, `str.isalnum`, `str.split`, and the
`re` character classes used by the source's fixed regular expressions is
modelled by explicit code-point range checks.  The fixed anchored regular
expressions of the source are translated to equivalent deterministic
matchers (each is justified in a comment at its definition).
-/

set_option maxHeartbeats 1000000
set_option maxRecDepth 100000

abbrev Str := List Char

/-- Convert a Lean string literal to the `Str` model. -/
def sd (s : String) : Str := s.data

/-- Python regex `\s` / `str.strip` whitespace on the ASCII range:
space, tab, newline, carriage return, vertical tab, form feed. -/
def isWsChar (c : Char) : Bool :=
  c.toNat == 32 || c.toNat == 9 || c.toNat == 10 || c.toNat == 13 ||
  c.toNat == 11 || c.toNat == 12

/-- ASCII digit, as in `str.isdigit` / regex `\d` on ASCII input. -/
def isDigitChar (c : Char) : Bool := decide (48 ≤ c.toNat) && decide (c.toNat ≤ 57)

/-- ASCII uppercase letter, regex `[A-Z]`. -/
def isUpperChar (c : Char) : Bool := decide (65 ≤ c.toNat) && decide (c.toNat ≤ 90)

/-- ASCII lowercase letter, regex `[a-z]`. -/
def isLowerChar (c : Char) : Bool := decide (97 ≤ c.toNat) && decide (c.toNat ≤ 122)

/-- ASCII letter, regex `[a-zA-Z]`. -/
def isAlphaChar (c : Char) : Bool := isUpperChar c || isLowerChar c

/-- ASCII alphanumeric, as in `str.isalnum` on ASCII input. -/
def isAlnumChar (c : Char) : Bool := isAlphaChar c || isDigitChar c

/-- Regex `\w` on the ASCII range: alphanumeric or underscore. -/
def isWordChar (c : Char) : Bool := isAlnumChar c || c.toNat == 95

/-- `str.lower` on one ASCII character. -/
def lowerChar (c : Char) : Char :=
  if 65 ≤ c.toNat ∧ c.toNat ≤ 90 then Char.ofNat (c.toNat + 32) else c

/-- `str.lower` (ASCII model). -/
def pyLower (l : Str) : Str := l.map lowerChar

/-- `str.isdigit`: non-empty and all digits. -/
def pyIsDigit (l : Str) : Bool := !l.isEmpty && l.all isDigitChar

/-- `str.isalnum`: non-empty and all alphanumeric. -/
def pyIsAlnum (l : Str) : Bool := !l.isEmpty && l.all isAlnumChar

/-- `str.startswith` / matching a literal regex prefix. -/
def startsWithL : Str → Str → Bool
  | [], _ => true
  | _ :: _, [] => false
  | p :: ps, c :: cs => p == c && startsWithL ps cs

/-- Remove trailing whitespace (the right half of `str.strip`). -/
def dropTrailingWs : Str → Str
  | [] => []
  | c :: rest =>
    match dropTrailingWs rest with
    | [] => if isWsChar c then [] else [c]
    | r => c :: r

/-- `str.strip` (ASCII whitespace model). -/
def pyStrip (l : Str) : Str := dropTrailingWs (l.dropWhile isWsChar)

/-- Helper for `str.split`: `cur` holds the current word reversed. -/
def pySplitGo : Str → Str → List Str
  | [], cur => if cur.isEmpty then [] else [cur.reverse]
  | c :: rest, cur =>
    if isWsChar c then
      if cur.isEmpty then pySplitGo rest [] else cur.reverse :: pySplitGo rest []
    else pySplitGo rest (c :: cur)

/-- `str.split()` with no argument: split on whitespace runs, no empty parts. -/
def pySplit (l : Str) : List Str := pySplitGo l []

/-- `" ".join(xs)`. -/
def joinSpace : List Str → Str
  | [] => []
  | [x] => x
  | x :: rest => x ++ ' ' :: joinSpace rest

/-- An HTML attribute value as BeautifulSoup presents it: a plain string, or
a list of tokens (multi-valued attributes such as `class`). -/
inductive AttrVal where
  | str (s : Str)
  | vlist (xs : List Str)

/-- Python truthiness of an attribute value (`if not classes`, `if name and content`). -/
def attrTruthy : AttrVal → Bool
  | .str s => !s.isEmpty
  | .vlist xs => !xs.isEmpty

/-- The apostrophe character (used by Python `repr` of a string list). -/
def aposChar : Char := Char.ofNat 39

/-- Elements of Python `str(list_of_str)` between the brackets:
each token wrapped in apostrophes, separated by comma-space.  (The source
never puts apostrophes inside class tokens, so no escaping is modelled.) -/
def pyReprItems : List Str → Str
  | [] => []
  | [x] => aposChar :: x ++ [aposChar]
  | x :: rest => aposChar :: x ++ [aposChar] ++ (',' :: ' ' :: pyReprItems rest)

/-- `str(value)` as applied by `should_remove_single_hash_class` and the
react-tabs id check: identity on strings, Python `repr` shape on lists. -/
def pyStr : AttrVal → Str
  | .str s => s
  | .vlist xs => '[' :: pyReprItems xs ++ [']']

/-- The value used when an attribute is written to the output:
`" ".join(value)` for lists (then `str(...)` which is the identity), the
string itself otherwise.  Mirrors the
`if isinstance(attr_value, list): attr_value = " ".join(attr_value)` step. -/
def pyStrAttr : AttrVal → Str
  | .str s => s
  | .vlist xs => joinSpace xs

/-! ## Parsed input tree (BeautifulSoup view) and output tree (ElementTree view) -/

mutual
/-- A parsed HTML node: a `NavigableString` or a `Tag` with ordered
attributes and ordered children. -/
inductive SoupNode where
  | text (s : Str)
  | tag (tagName : Str) (attrs : List (Str × AttrVal)) (children : SoupList)
/-- An ordered sequence of parsed nodes. -/
inductive SoupList where
  | nil
  | cons (head : SoupNode) (tail : SoupList)
end

def SoupList.isNil : SoupList → Bool
  | .nil => true
  | .cons _ _ => false

/-- An output `xml.etree.ElementTree` element: tag, ordered attribute dict,
optional `.text`, and child elements. -/
structure XmlElem where
  tag : Str
  attrs : List (Str × Str)
  text : Option Str
  children : List XmlElem

/-- The mutable part of a parent element that `process_element` updates:
its `.text` and its appended children. -/
structure PState where
  text : Option Str
  children : List XmlElem

/-- `element.get(key)`: first (and, for a dict, only) binding of the key. -/
def getAttr (attrs : List (Str × AttrVal)) (k : Str) : Option AttrVal :=
  match attrs.find? (fun p => p.1 == k) with
  | some p => some p.2
  | none => none

/-- `elem.attrib` membership test for the output element. -/
def hasKey (attrs : List (Str × Str)) (k : Str) : Bool :=
  attrs.any (fun p => p.1 == k)

/-- `ET.Element.set`: replace the binding in place if the key exists
(dict update keeps the original position), else append it. -/
def etSet (attrs : List (Str × Str)) (k v : Str) : List (Str × Str) :=
  if hasKey attrs k then attrs.map (fun p => if p.1 == k then (k, v) else p)
  else attrs ++ [(k, v)]

/-- Appending text to a parent with a single-space separator:
`if parent.text: parent.text += " " + text else: parent.text = text`. -/
def joinTextSep (old : Option Str) (t : Str) : Option Str :=
  match old with
  | some o => if !o.isEmpty then some (o ++ ' ' :: t) else some t
  | none => some t

/-- Appending text with no separator (the span-simplification branch):
`if parent.text: parent.text += text else: parent.text = text`. -/
def joinTextRaw (old : Option Str) (t : Str) : Option Str :=
  match old with
  | some o => if !o.isEmpty then some (o ++ t) else some t
  | none => some t

/-! ## StructuralHTMLConverter: class token classification -/

/-- Configuration flags of `StructuralHTMLConverter` that influence its logic. -/
structure SConfig where
  ultra_aggressive : Bool
  simplify_spans : Bool

/-- `SEMANTIC_CLASS_PATTERNS`: substring markers grouped as in the source. -/
def SEMANTIC_CLASS_PATTERNS : List (Str × List Str) :=
  [ (sd "layout", [sd "header", sd "footer", sd "nav", sd "sidebar", sd "content",
      sd "main", sd "wrapper", sd "container"]),
    (sd "component", [sd "button", sd "menu", sd "dropdown", sd "modal", sd "tab",
      sd "accordion", sd "carousel"]),
    (sd "state", [sd "active", sd "disabled", sd "hidden", sd "open", sd "closed",
      sd "expanded", sd "collapsed"]),
    (sd "type", [sd "primary", sd "secondary", sd "warning", sd "error",
      sd "success", sd "info"]) ]

/-- Python `needle in haystack`: contiguous substring test. -/
def isSubL (needle hay : Str) : Bool := decide (needle <:+: hay)

/-- `re.match(r'^\w+-\d+$', l)` as a full match.  `\w` cannot match `-`, so
the regex matches exactly when the maximal leading `\w` run is non-empty and
is followed by `-` and then a non-empty all-digit tail. -/
def utilClassMatch (l : Str) : Bool :=
  let p := l.takeWhile isWordChar
  let r := l.dropWhile isWordChar
  !p.isEmpty &&
    (match r with
     | c :: rest => c == '-' && !rest.isEmpty && rest.all isDigitChar
     | [] => false)

/-- `re.match(r'^[a-z]+\d+$', l)`: maximal lowercase-letter prefix (letters
cannot match `\d`), then a non-empty all-digit tail reaching the end. -/
def lettersDigitsMatch (l : Str) : Bool :=
  let p := l.takeWhile isLowerChar
  let r := l.dropWhile isLowerChar
  !p.isEmpty && !r.isEmpty && r.all isDigitChar

def COLOR_WORDS : List Str :=
  [sd "red", sd "blue", sd "green", sd "yellow", sd "black", sd "white", sd "gray"]
def SIZE_WORDS : List Str :=
  [sd "small", sd "medium", sd "large", sd "xl", sd "xxl"]
def ALIGN_WORDS : List Str :=
  [sd "left", sd "right", sd "center", sd "justify"]
def TEXTSTYLE_WORDS : List Str :=
  [sd "bold", sd "italic", sd "underline"]

/-- `STYLING_PATTERNS`: one disjunct per fixed regex, in source order.  The
alternation regexes such as `^(red|blue|...)$` are exact-word matches. -/
def stylingMatch (l : Str) : Bool :=
  utilClassMatch l || lettersDigitsMatch l || COLOR_WORDS.contains l ||
  SIZE_WORDS.contains l || ALIGN_WORDS.contains l || TEXTSTYLE_WORDS.contains l

def AGGRESSIVE_WORDS : List Str :=
  [sd "hoverable", sd "collapsed", sd "collapsible", sd "collapser", sd "expanded",
   sd "selected", sd "active", sd "obj", sd "array", sd "last", sd "first"]

/-- `re.match(r'^sc-[a-zA-Z0-9_-]+$', l)`. -/
def scClassMatch (l : Str) : Bool :=
  startsWithL (sd "sc-") l &&
    (let r := l.drop 3
     !r.isEmpty && r.all (fun c => isAlnumChar c || c == '_' || c == '-'))

/-- `re.match(r'^react-tabs__', l)`: unanchored at the right, a prefix test. -/
def reactTabsUnderMatch (l : Str) : Bool := startsWithL (sd "react-tabs__") l

def TAB_STATE_WORDS : List Str :=
  [sd "tab-error", sd "tab-success", sd "tab-warning"]

/-- `re.match(r'^.*[A-Z]{3,}[a-z]{2,}$', l)`: the `[a-z]{2,}` run must reach
the end, and the character before it must be uppercase, so the regex matches
exactly when the maximal trailing lowercase run has length ≥ 2 and the
maximal uppercase run immediately before it has length ≥ 3. -/
def mixedCaseEndMatch (l : Str) : Bool :=
  let r := l.reverse
  let lows := r.takeWhile isLowerChar
  let ups := (r.dropWhile isLowerChar).takeWhile isUpperChar
  decide (2 ≤ lows.length) && decide (3 ≤ ups.length)

/-- `re.match(r'^[a-z]{2,5}[A-Z]{2,5}$', l)`: maximal lowercase prefix
(2–5 chars) followed by an all-uppercase tail (2–5 chars) to the end. -/
def shortMixedMatch (l : Str) : Bool :=
  let p := l.takeWhile isLowerChar
  let r := l.dropWhile isLowerChar
  decide (2 ≤ p.length) && decide (p.length ≤ 5) && decide (2 ≤ r.length) &&
  decide (r.length ≤ 5) && r.all isUpperChar

/-- `re.match(r'^[a-zA-Z]{6}$', l)`: exactly six letters. -/
def sixAlphaMatch (l : Str) : Bool := l.length == 6 && l.all isAlphaChar

/-- `AGGRESSIVE_STYLING_PATTERNS`: one disjunct per fixed regex. -/
def aggressiveMatch (l : Str) : Bool :=
  AGGRESSIVE_WORDS.contains l || scClassMatch l || reactTabsUnderMatch l ||
  TAB_STATE_WORDS.contains l || mixedCaseEndMatch l || shortMixedMatch l ||
  sixAlphaMatch l

/-- Does any semantic substring marker occur in the lower-cased token? -/
def semanticAnyMatch (cl : Str) : Bool :=
  SEMANTIC_CLASS_PATTERNS.any (fun g => g.2.any (fun p => isSubL p cl))

/-- `StructuralHTMLConverter.is_semantic_class`. -/
def is_semantic_class (ultra : Bool) (cn : Str) : Bool :=
  let cl := pyLower cn
  if stylingMatch cl then false
  else if ultra && aggressiveMatch cn then false
  else if semanticAnyMatch cl then true
  else decide (2 < cn.length) && !pyIsDigit cn

/-- `StructuralHTMLConverter.should_remove_single_hash_class`. -/
def should_remove_single_hash_class (ultra : Bool) (v : AttrVal) : Bool :=
  if !ultra then false
  else
    let cs := pyStrip (pyStr v)
    if cs.contains ' ' then false
    else cs.length == 6 && pyIsAlnum cs

/-- `StructuralHTMLConverter.clean_class_attribute`: `none` models Python
`None` (attribute dropped entirely). -/
def clean_class_attribute (ultra : Bool) (v : AttrVal) : Option Str :=
  if !attrTruthy v then none
  else if should_remove_single_hash_class ultra v then none
  else
    let toks := match v with
      | .vlist xs => xs
      | .str s => pySplit s
    let sem := toks.filter (is_semantic_class ultra)
    if sem.isEmpty then none else some (joinSpace sem)

/-! ## StructuralHTMLConverter: attribute filtering, img removal, text cleaning -/

def CORE_ATTRS : List Str := [sd "id", sd "class", sd "role"]
def SEMANTIC_ATTRS : List Str :=
  [sd "href", sd "src", sd "alt", sd "title", sd "type", sd "value", sd "name"]

/-- `re.match(r'^react-tabs-\d+$', l)`: the literal prefix followed by a
non-empty all-digit tail reaching the end. -/
def reactTabsIdMatch (l : Str) : Bool :=
  startsWithL (sd "react-tabs-") l &&
    (let r := l.drop 11
     !r.isEmpty && r.all isDigitChar)

/-- `StructuralHTMLConverter.should_preserve_attribute`. -/
def should_preserve_attribute (cfg : SConfig) (attrName : Str) (attrValue : AttrVal)
    (tagName : Str) : Bool :=
  let al := pyLower attrName
  if startsWithL (sd "aria-") al then false
  else if tagName == sd "span" && al == sd "class" then false
  else if al == sd "id" && cfg.ultra_aggressive && reactTabsIdMatch (pyStr attrValue) then
    false
  else if CORE_ATTRS.contains al || SEMANTIC_ATTRS.contains al then true
  else if startsWithL (sd "data-") al then
    if al == sd "data-testid" then false
    else
      let dn := al.drop 5
      [sd "id", sd "role", sd "type", sd "section", sd "item"].any (fun p => isSubL p dn)
  else false

/-- `StructuralHTMLConverter.should_remove_img`, on the element's attributes.
`img_elem.get('src', '')` yields `''` when absent (no match); `src` is never
multi-valued in parsed HTML, so the list case cannot start with `data:`. -/
def should_remove_img (attrs : List (Str × AttrVal)) : Bool :=
  match getAttr attrs (sd "src") with
  | some (.str s) => startsWithL (sd "data:") s && decide (1000 < s.length)
  | some (.vlist _) => false
  | none => false

/-- Collapse whitespace runs to single spaces, `re.sub(r'\s+', ' ', l)`.
`prevWs` records whether the previous character was part of a run. -/
def collapseWsAux : Bool → Str → Str
  | _, [] => []
  | prevWs, c :: rest =>
    if isWsChar c then
      if prevWs then collapseWsAux true rest else ' ' :: collapseWsAux true rest
    else c :: collapseWsAux false rest

/-- After an opening character, skip `\s*` and require the closing one;
returns the remainder after the match. -/
def pairRest (closeCh : Char) (l : Str) : Option Str :=
  match l.dropWhile isWsChar with
  | c :: rest => if c == closeCh then some rest else none
  | [] => none

/-- Fuel-bounded left-to-right scan of `re.sub(openCh\s*closeCh, '', l)`:
at each position, replace a leftmost match by nothing and continue after it.
Fuel `l.length` always suffices since each step consumes ≥ 1 character. -/
def subPairGo (openCh closeCh : Char) : Nat → Str → Str
  | 0, l => l
  | _ + 1, [] => []
  | fuel + 1, c :: rest =>
    if c == openCh then
      match pairRest closeCh rest with
      | some rest2 => subPairGo openCh closeCh fuel rest2
      | none => c :: subPairGo openCh closeCh fuel rest
    else c :: subPairGo openCh closeCh fuel rest

def subPair (openCh closeCh : Char) (l : Str) : Str :=
  subPairGo openCh closeCh l.length l

/-- Fuel-bounded scan of `re.sub(ch{minN,}, repl, l)`: a greedy leftmost
match covers a whole run of `ch`; runs of length ≥ `minN` are replaced by
`repl`, shorter runs are copied through. -/
def subRunGo (ch : Char) (minN : Nat) (repl : Str) : Nat → Str → Str
  | 0, l => l
  | _ + 1, [] => []
  | fuel + 1, c :: rest =>
    if c == ch then
      let runLen := 1 + (rest.takeWhile (fun d => d == ch)).length
      if minN ≤ runLen then repl ++ subRunGo ch minN repl fuel (rest.dropWhile (fun d => d == ch))
      else c :: subRunGo ch minN repl fuel rest
    else c :: subRunGo ch minN repl fuel rest

def subRun (ch : Char) (minN : Nat) (repl : Str) (l : Str) : Str :=
  subRunGo ch minN repl l.length l

/-- `StructuralHTMLConverter.aggressive_text_clean`. -/
def aggressive_text_clean (l : Str) : Str :=
  if l.isEmpty then []
  else
    let t1 := collapseWsAux false (pyStrip l)
    let t2 := subPair '(' ')' t1
    let t3 := subPair '[' ']' t2
    let t4 := subRun '.' 3 (sd "...") t3
    let t5 := subRun '-' 2 (sd "--") t4
    pyStrip t5

/-! ## Document text extraction (`get_text`) -/

mutual
/-- `Tag.get_text()` with the default empty separator: concatenation of all
descendant strings in document order. -/
def getTextN : SoupNode → Str
  | .text s => s
  | .tag _ _ cs => getTextL cs
def getTextL : SoupList → Str
  | .nil => []
  | .cons n rest => getTextN n ++ getTextL rest
end

/-! ## StructuralHTMLConverter: span simplification and tree building -/

def openBraceChar : Char := Char.ofNat 123
def closeBraceChar : Char := Char.ofNat 125
def quoteChar : Char := Char.ofNat 34

/-- The fixed punctuation set of `should_simplify_span`. -/
def SIMPLE_PUNCT : List Str :=
  [[','], [openBraceChar], [closeBraceChar], ['['], [']'], [':'], ['('], [')'], [';']]

/-- The text-content conditions of `should_simplify_span` on the stripped
flattened text: fixed punctuation, double-quoted string shape, digits after
removing `.` and `-`, or a boolean/null literal. -/
def isSimpleSpanText (t : Str) : Bool :=
  SIMPLE_PUNCT.contains t ||
  (startsWithL [quoteChar] t && startsWithL [quoteChar] t.reverse) ||
  pyIsDigit (t.filter (fun c => !(c == '.') && !(c == '-'))) ||
  t == sd "true" || t == sd "false" || t == sd "null"

/-- `StructuralHTMLConverter.should_simplify_span` on the span's attributes
and children. -/
def should_simplify_span (cfg : SConfig) (attrs : List (Str × AttrVal))
    (children : SoupList) : Bool :=
  if !cfg.simplify_spans then false
  else if attrs.any (fun p => should_preserve_attribute cfg p.1 p.2 (sd "span")) then false
  else isSimpleSpanText (pyStrip (getTextL children))

/-- One step of the structural attribute loop in `process_element`. -/
def procAttrStepS (cfg : SConfig) (tagName : Str) (acc : List (Str × Str))
    (kv : Str × AttrVal) : List (Str × Str) :=
  if should_preserve_attribute cfg kv.1 kv.2 tagName then
    if kv.1 == sd "class" then
      match clean_class_attribute cfg.ultra_aggressive kv.2 with
      | some s => if !s.isEmpty then etSet acc (sd "class") s else acc
      | none => acc
    else if !(pyStrip (pyStrAttr kv.2)).isEmpty then
      etSet acc kv.1 (pyStrip (pyStrAttr kv.2))
    else acc
  else acc

def processAttrsS (cfg : SConfig) (tagName : Str) (attrs : List (Str × AttrVal)) :
    List (Str × Str) :=
  attrs.foldl (procAttrStepS cfg tagName) []

/-- `REMOVE_TAGS`, identical in both converter classes. -/
def REMOVE_TAGS : List Str :=
  [sd "script", sd "style", sd "noscript", sd "iframe", sd "embed", sd "object"]

mutual
/-- `StructuralHTMLConverter.process_element`: the effect of processing one
parsed node against a parent state. -/
def processElementS (cfg : SConfig) : SoupNode → PState → PState
  | .text s, ps =>
    let t := aggressive_text_clean s
    if !t.isEmpty then { ps with text := joinTextSep ps.text t } else ps
  | .tag name attrs children, ps =>
    if REMOVE_TAGS.contains name then ps
    else if name == sd "img" && should_remove_img attrs then ps
    else if name == sd "span" && should_simplify_span cfg attrs children then
      let t := aggressive_text_clean (getTextL children)
      if !t.isEmpty then { ps with text := joinTextRaw ps.text t } else ps
    else
      let fa := processAttrsS cfg name attrs
      let sub := processChildrenS cfg children { text := none, children := [] }
      { ps with children := ps.children ++
          [{ tag := name, attrs := fa, text := sub.text, children := sub.children }] }
/-- Processing a sequence of children left to right. -/
def processChildrenS (cfg : SConfig) : SoupList → PState → PState
  | .nil, ps => ps
  | .cons c rest, ps => processChildrenS cfg rest (processElementS cfg c ps)
end

/-- The output element the structural variant builds for a tag that is
neither removed, dropped as an oversized image, nor simplified. -/
def sBuiltElem (cfg : SConfig) (name : Str) (attrs : List (Str × AttrVal))
    (children : SoupList) : XmlElem :=
  let sub := processChildrenS cfg children { text := none, children := [] }
  { tag := name, attrs := processAttrsS cfg name attrs,
    text := sub.text, children := sub.children }

/-! ## HTMLToXMLConverter (semantic-mapping variant) -/

/-- Constructor options of `HTMLToXMLConverter`. -/
structure XConfig where
  preserve_all_data_attrs : Bool
  custom_preserve_attrs : List Str

/-- `HTMLToXMLConverter.PRESERVE_ATTRS`. -/
def PRESERVE_ATTRS : List Str :=
  [sd "id", sd "name", sd "href", sd "src", sd "alt", sd "title", sd "type",
   sd "value", sd "action", sd "method", sd "rel", sd "target", sd "colspan",
   sd "rowspan", sd "role", sd "aria-label", sd "aria-labelledby",
   sd "aria-controls", sd "data-section-id", sd "data-item-id", sd "data-role"]

/-- The resolved preserve set: class constant plus constructor extras. -/
def xPreserve (cfg : XConfig) : List Str := PRESERVE_ATTRS ++ cfg.custom_preserve_attrs

/-- `HTMLToXMLConverter.should_preserve_attr`. -/
def should_preserve_attr (cfg : XConfig) (attrName : Str) : Bool :=
  (xPreserve cfg).contains attrName ||
  (cfg.preserve_all_data_attrs && startsWithL (sd "data-") attrName)

def UNWRAP_TAGS : List Str :=
  [sd "font", sd "center", sd "b", sd "i", sd "u", sd "s", sd "strike"]

def TAG_MAPPINGS : List (Str × Str) :=
  [ (sd "div", sd "section"), (sd "span", sd "text"), (sd "b", sd "strong"),
    (sd "i", sd "em"), (sd "h1", sd "heading1"), (sd "h2", sd "heading2"),
    (sd "h3", sd "heading3"), (sd "h4", sd "heading4"), (sd "h5", sd "heading5"),
    (sd "h6", sd "heading6") ]

/-- `HTMLToXMLConverter.convert_tag_name`: semantic mapping, else
`re.sub(r'[^a-zA-Z0-9_-]', '_', tag_name)`. -/
def convert_tag_name (t : Str) : Str :=
  match TAG_MAPPINGS.find? (fun p => p.1 == t) with
  | some p => p.2
  | none => t.map (fun c => if isAlnumChar c || c == '_' || c == '-' then c else '_')

/-- `html.escape(text, quote=False)`: replace `&`, `<`, `>` by the entities
`&amp;`, `&lt;`, `&gt;`. -/
def escapeHtml : Str → Str
  | [] => []
  | c :: rest =>
    if c == '&' then '&' :: 'a' :: 'm' :: 'p' :: ';' :: escapeHtml rest
    else if c == '<' then '&' :: 'l' :: 't' :: ';' :: escapeHtml rest
    else if c == '>' then '&' :: 'g' :: 't' :: ';' :: escapeHtml rest
    else c :: escapeHtml rest

/-- `HTMLToXMLConverter.clean_text`: collapse whitespace, strip, escape. -/
def clean_text (l : Str) : Str :=
  if l.isEmpty then [] else escapeHtml (pyStrip (collapseWsAux false l))

/-- One step of the semantic attribute loop in `process_element`. -/
def procAttrStepX (cfg : XConfig) (acc : List (Str × Str)) (kv : Str × AttrVal) :
    List (Str × Str) :=
  if should_preserve_attr cfg kv.1 then
    if !(pyStrip (pyStrAttr kv.2)).isEmpty then etSet acc kv.1 (pyStrip (pyStrAttr kv.2))
    else acc
  else acc

/-- Python falsiness of `xml_elem.text` (`None` or the empty string). -/
def textFalsy : Option Str → Bool
  | none => true
  | some t => t.isEmpty

/-- The attribute dict the semantic variant gives a new output element:
the preserve-filter loop followed by the empty-`href` special case for
anchors. -/
def xFinalAttrs (cfg : XConfig) (name : Str) (attrs : List (Str × AttrVal)) :
    List (Str × Str) :=
  let a1 := attrs.foldl (procAttrStepX cfg) []
  if name == sd "a" && !hasKey a1 (sd "href") then etSet a1 (sd "href") [] else a1

mutual
/-- `HTMLToXMLConverter.process_element`. -/
def processElementX (cfg : XConfig) : SoupNode → PState → PState
  | .text s, ps =>
    let t := clean_text s
    if !t.isEmpty then { ps with text := joinTextSep ps.text t } else ps
  | .tag name attrs children, ps =>
    if REMOVE_TAGS.contains name then ps
    else if UNWRAP_TAGS.contains name then processChildrenX cfg children ps
    else
      let outName := convert_tag_name name
      let a2 := xFinalAttrs cfg name attrs
      let sub := processChildrenX cfg children { text := none, children := [] }
      let txt := if children.isNil && textFalsy sub.text then some [] else sub.text
      { ps with children := ps.children ++
          [{ tag := outName, attrs := a2, text := txt, children := sub.children }] }
/-- Processing a sequence of children left to right. -/
def processChildrenX (cfg : XConfig) : SoupList → PState → PState
  | .nil, ps => ps
  | .cons c rest, ps => processChildrenX cfg rest (processElementX cfg c ps)
end

/-- The output element the semantic variant builds for a tag that is
neither removed nor unwrapped. -/
def xBuiltElem (cfg : XConfig) (name : Str) (attrs : List (Str × AttrVal))
    (children : SoupList) : XmlElem :=
  let sub := processChildrenX cfg children { text := none, children := [] }
  { tag := convert_tag_name name, attrs := xFinalAttrs cfg name attrs,
    text := if children.isNil && textFalsy sub.text then some [] else sub.text,
    children := sub.children }

/-! ## Metadata extraction (semantic-mapping variant only) -/

/-- `soup.find_all(t)` over a node sequence: every matching descendant tag in
document (pre-)order. -/
def findAllIn (t : Str) : SoupList → List SoupNode
  | .nil => []
  | .cons n rest =>
    match n with
    | .text _ => findAllIn t rest
    | .tag name attrs cs =>
      (if name == t then [SoupNode.tag name attrs cs] else []) ++
      findAllIn t cs ++ findAllIn t rest

def nodeAttrs : SoupNode → List (Str × AttrVal)
  | .text _ => []
  | .tag _ a _ => a

def nodeChildrenL : SoupNode → SoupList
  | .text _ => .nil
  | .tag _ _ c => c

/-- Python `a or b` over optional attribute values: the first operand when
it is truthy, otherwise the second. -/
def pyOrAttr (a b : Option AttrVal) : Option AttrVal :=
  match a with
  | some v => if attrTruthy v then some v else b
  | none => b

/-- The `name`/`property`/`content` resolution of one `<meta>` element:
`name = meta.get("name") or meta.get("property")`, then
`if name and content`.  A list-valued name would be an unhashable dict key
in the source; names are plain strings in parsed HTML. -/
def metaKeyContent (attrs : List (Str × AttrVal)) : Option (Str × AttrVal) :=
  match pyOrAttr (getAttr attrs (sd "name")) (getAttr attrs (sd "property")),
        getAttr attrs (sd "content") with
  | some (.str s), some c => if !s.isEmpty && attrTruthy c then some (s, c) else none
  | _, _ => none

/-- Python dict assignment `m[k] = v` on an insertion-ordered mapping:
update in place if the key exists, else append. -/
def dictInsert (m : List (Str × AttrVal)) (k : Str) (v : AttrVal) :
    List (Str × AttrVal) :=
  if m.any (fun p => p.1 == k) then m.map (fun p => if p.1 == k then (k, v) else p)
  else m ++ [(k, v)]

/-- Dict lookup on the ordered mapping. -/
def lookupMeta (m : List (Str × AttrVal)) (k : Str) : Option AttrVal :=
  match m.find? (fun p => p.1 == k) with
  | some p => some p.2
  | none => none

/-- The body of the `<meta>` loop of `extract_metadata`. -/
def metaStep (m : List (Str × AttrVal)) (meta : SoupNode) : List (Str × AttrVal) :=
  match metaKeyContent (nodeAttrs meta) with
  | some kc => dictInsert m kc.1 kc.2
  | none => m

/-- `HTMLToXMLConverter.extract_metadata` on the parsed document's top-level
node sequence: find the head, record the cleaned title text (if a title tag
exists), then walk every descendant `<meta>` in document order. -/
def extract_metadata (doc : SoupList) : List (Str × AttrVal) :=
  match (findAllIn (sd "head") doc).head? with
  | none => []
  | some h =>
    let hch := nodeChildrenL h
    let m0 : List (Str × AttrVal) :=
      match (findAllIn (sd "title") hch).head? with
      | some t => dictInsert [] (sd "title") (.str (clean_text (getTextN t)))
      | none => []
    (findAllIn (sd "meta") hch).foldl metaStep m0

/-! ## Size statistics (`get_stats`, textually identical in both classes) -/

/-- UTF-8 byte length of a text, `len(s.encode("utf-8"))`. -/
def utf8Len (l : Str) : Nat := (l.map Char.utf8Size).sum

/-- The statistics record returned by `get_stats`; the float division is
modelled exactly over the rationals. -/
structure ConvStats where
  original_size : Nat
  new_size : Nat
  reduction_percent : ℚ
  reduction_bytes : ℤ

/-- `get_stats(original_html, xml_string)`: `none` models the
`ZeroDivisionError` raised when the original text encodes to zero bytes
(the source has no guard). -/
def get_stats (origHtml xmlString : Str) : Option ConvStats :=
  let o := utf8Len origHtml
  let n := utf8Len xmlString
  if o = 0 then none
  else some { original_size := o, new_size := n,
              reduction_percent := ((o : ℚ) - (n : ℚ)) / (o : ℚ) * 100,
              reduction_bytes := (o : ℤ) - (n : ℤ) }

/-! ## Normalization predicates for the text invariant -/

/-- Is the first character whitespace? (`false` for the empty text.) -/
def headWs : Str → Bool
  | [] => false
  | c :: _ => isWsChar c

/-- Is the last character whitespace? (`false` for the empty text.) -/
def lastWs : Str → Bool
  | [] => false
  | [c] => isWsChar c
  | _ :: rest => lastWs rest

/-- Does the text contain two adjacent whitespace characters (a raw
whitespace run)? -/
def hasWsRun : Str → Bool
  | c :: d :: rest => (isWsChar c && isWsChar d) || hasWsRun (d :: rest)
  | _ => false

/-- Are the XML-illegal characters properly escaped: no raw `<` or `>`, and
every `&` begins one of the entities `&amp;`, `&lt;`, `&gt;`? -/
def escOkB : Str → Bool
  | [] => true
  | c :: rest =>
    if c == '<' || c == '>' then false
    else if c == '&' then
      (startsWithL (sd "amp;") rest || startsWithL (sd "lt;") rest ||
       startsWithL (sd "gt;") rest) && escOkB rest
    else escOkB rest

/-- A fully normalized text: no whitespace runs, no whitespace at either
edge, and XML-illegal characters only in escaped form. -/
def textProp (t : Str) : Bool :=
  !hasWsRun t && !headWs t && !lastWs t && escOkB t

/-- Normalization of an optional `.text` field (absent text is fine). -/
def textFieldOk : Option Str → Bool
  | none => true
  | some t => textProp t

/-- Every `.text` in an output element's subtree is normalized. -/
inductive ElemOk : XmlElem → Prop where
  | intro (tag : Str) (attrs : List (Str × Str)) (text : Option Str)
      (children : List XmlElem) :
      textFieldOk text = true → (∀ c ∈ children, ElemOk c) →
      ElemOk ⟨tag, attrs, text, children⟩

/-- Every text the parent state holds, directly or in a subtree, is
normalized. -/
def PStateOkP (ps : PState) : Prop :=
  textFieldOk ps.text = true ∧ ∀ e ∈ ps.children, ElemOk e

/-! ## Helpers for stating the metadata claim -/

/-- Last element of a list, if any. -/
def lastOpt {α : Type} : List α → Option α
  | [] => none
  | [a] => some a
  | _ :: rest => lastOpt rest

/-- The content a single `<meta>` element contributes under key `k`
(its content when its resolved key is `k` and both are truthy). -/
def entryFor (k : Str) (meta : SoupNode) : Option AttrVal :=
  match metaKeyContent (nodeAttrs meta) with
  | some kc => if kc.1 = k then some kc.2 else none
  | none => none

/-- The contents of the `<meta>` elements that resolve to key `k` with a
truthy content, in document order. -/
def relContents (k : Str) (metas : List SoupNode) : List AttrVal :=
  metas.filterMap (entryFor k)

/-! ## Concrete inputs used in witnesses and counterexamples -/

/-- An oversized data URI (1001 characters). -/
def longSrc : Str := sd "data:" ++ List.replicate 996 'a'

def metaA1 : SoupNode :=
  .tag (sd "meta") [(sd "name", .str (sd "a")), (sd "content", .str (sd "1"))] .nil
def metaA2 : SoupNode :=
  .tag (sd "meta") [(sd "name", .str (sd "a")), (sd "content", .str (sd "2"))] .nil
/-- A head section with two `<meta>` elements sharing the key `a`. -/
def headC6 : SoupNode := .tag (sd "head") [] (.cons metaA1 (.cons metaA2 .nil))
def docC6 : SoupList := .cons headC6 .nil

/-! # Theorems -/

/-! ## Character-class facts -/

lemma lowerChar_of_digit (c : Char) (h : isDigitChar c = true) : lowerChar c = c := by
  simp only [isDigitChar, Bool.and_eq_true, decide_eq_true_eq] at h
  unfold lowerChar
  rw [if_neg (by omega)]

lemma not_ws_of_alnum (c : Char) (h : isAlnumChar c = true) : isWsChar c = false := by
  simp only [isAlnumChar, isAlphaChar, isUpperChar, isLowerChar, isDigitChar,
    Bool.or_eq_true, Bool.and_eq_true, decide_eq_true_eq] at h
  simp only [isWsChar, Bool.or_eq_false_iff, beq_eq_false_iff_ne, ne_eq]
  omega

/-! ## Stripping facts -/

lemma dropWhileWs_eq_self (l : Str) (h : ∀ c ∈ l, isWsChar c = false) :
    l.dropWhile isWsChar = l := by
  cases l with
  | nil => rfl
  | cons c rest =>
    rw [List.dropWhile_cons, if_neg]
    simp [h c (by simp)]

lemma dropTrailingWs_eq_self (l : Str) (h : ∀ c ∈ l, isWsChar c = false) :
    dropTrailingWs l = l := by
  induction l with
  | nil => rfl
  | cons c rest ih =>
    have hr : dropTrailingWs rest = rest := ih (fun d hd => h d (by simp [hd]))
    unfold dropTrailingWs
    rw [hr]
    cases rest with
    | nil => simp [h c (by simp)]
    | cons d tl => rfl

lemma pyStrip_eq_self (l : Str) (h : ∀ c ∈ l, isWsChar c = false) : pyStrip l = l := by
  unfold pyStrip
  rw [dropWhileWs_eq_self l h, dropTrailingWs_eq_self l h]

/-! ## C3: basic styling patterns always drop -/

/-- C3: a class token whose lower-cased form matches one of the basic
styling patterns (`STYLING_PATTERNS`) is classified as non-semantic
(dropped) by `is_semantic_class`, under either value of the
ultra-aggressive flag. -/
theorem c3_styling_tokens_dropped (ultra : Bool) (cn : Str)
    (h : stylingMatch (pyLower cn) = true) : is_semantic_class ultra cn = false := by
  unfold is_semantic_class
  simp [h]

/-- Witness for C3 at the utility token `mt-4`. -/
theorem c3_witness :
    stylingMatch (pyLower (sd "mt-4")) = true ∧
      is_semantic_class false (sd "mt-4") = false :=
  ⟨by decide, c3_styling_tokens_dropped false (sd "mt-4") (by decide)⟩

/-! ## C8: short or purely numeric tokens always drop -/

lemma semantic_markers_facts :
    SEMANTIC_CLASS_PATTERNS.all
      (fun g => g.2.all (fun p => decide (3 ≤ p.length) && p.any (fun c => !isDigitChar c)))
      = true := by decide

lemma semanticAnyMatch_false_of_short_or_digits (cn : Str)
    (h : cn.length ≤ 2 ∨ pyIsDigit cn = true) :
    semanticAnyMatch (pyLower cn) = false := by
  rw [Bool.eq_false_iff]
  intro hsm
  obtain ⟨g, hg, hany⟩ := List.any_eq_true.mp hsm
  obtain ⟨p, hp, hsub⟩ := List.any_eq_true.mp hany
  have hfacts := List.all_eq_true.mp
    (List.all_eq_true.mp semantic_markers_facts g hg) p hp
  rw [Bool.and_eq_true, decide_eq_true_eq] at hfacts
  have hinf : p <:+: pyLower cn := of_decide_eq_true hsub
  rcases h with hlen | hdig
  · have : p.length ≤ (pyLower cn).length := hinf.sublist.length_le
    rw [pyLower, List.length_map] at this
    omega
  · rw [pyIsDigit, Bool.and_eq_true, List.all_eq_true] at hdig
    obtain ⟨c, hc, hnd⟩ := List.any_eq_true.mp hfacts.2
    have hcl : c ∈ pyLower cn := hinf.sublist.subset hc
    obtain ⟨c₀, hc₀, hlc⟩ := List.mem_map.mp hcl
    have hd₀ : isDigitChar c₀ = true := hdig.2 c₀ hc₀
    rw [lowerChar_of_digit c₀ hd₀] at hlc
    subst hlc
    simp [hd₀] at hnd

/-- C8: a class token of length at most 2, or consisting solely of digits,
is classified as non-semantic (dropped) by `is_semantic_class` under every
configuration. -/
theorem c8_short_or_numeric_dropped (ultra : Bool) (cn : Str)
    (h : cn.length ≤ 2 ∨ pyIsDigit cn = true) : is_semantic_class ultra cn = false := by
  have hsem := semanticAnyMatch_false_of_short_or_digits cn h
  unfold is_semantic_class
  by_cases h1 : stylingMatch (pyLower cn)
  · simp [h1]
  · by_cases h2 : (ultra && aggressiveMatch cn) = true
    · simp [h1, h2]
    · rw [if_neg h1, if_neg (by simpa using h2), if_neg (by simp [hsem])]
      rcases h with hlen | hdig
      · simp [show ¬(2 < cn.length) from by omega]
      · simp [hdig]

/-- Witness for C8 at the two-character token `ab` and the numeric token
`2024`. -/
theorem c8_witness :
    ((sd "ab").length ≤ 2 ∨ pyIsDigit (sd "ab") = true) ∧
      is_semantic_class true (sd "ab") = false ∧
      (((sd "2024").length ≤ 2 ∨ pyIsDigit (sd "2024") = true) ∧
        is_semantic_class false (sd "2024") = false) :=
  ⟨Or.inl (by decide), c8_short_or_numeric_dropped true (sd "ab") (Or.inl (by decide)),
   Or.inr (by decide), c8_short_or_numeric_dropped false (sd "2024") (Or.inr (by decide))⟩

/-! ## C10: size statistics and the missing zero guard -/

lemma utf8Len_pos (l : Str) (h : l ≠ []) : utf8Len l ≠ 0 := by
  cases l with
  | nil => exact absurd rfl h
  | cons c rest =>
    have := Char.utf8Size_pos c
    simp only [utf8Len, List.map_cons, List.sum_cons]
    omega

/-- C10: `get_stats` computes the byte sizes over the UTF-8 encodings and
divides by the original size with no zero guard: for a non-empty original
text it returns exactly the stated differences and percentage, and for the
empty original text the division fails (no result is returned). -/
theorem c10_get_stats :
    (∀ origHtml xmlString : Str, origHtml ≠ [] →
      get_stats origHtml xmlString = some
        { original_size := utf8Len origHtml,
          new_size := utf8Len xmlString,
          reduction_percent :=
            ((utf8Len origHtml : ℚ) - (utf8Len xmlString : ℚ)) / (utf8Len origHtml : ℚ) * 100,
          reduction_bytes := (utf8Len origHtml : ℤ) - (utf8Len xmlString : ℤ) }) ∧
    (∀ xmlString : Str, get_stats [] xmlString = none) := by
  constructor
  · intro o x ho
    unfold get_stats
    rw [if_neg (utf8Len_pos o ho)]
  · intro x
    rfl

/-- Witness for C10 at a one-byte original and output. -/
theorem c10_witness :
    (sd "a" ≠ []) ∧
      get_stats (sd "a") (sd "b") = some
        { original_size := utf8Len (sd "a"), new_size := utf8Len (sd "b"),
          reduction_percent :=
            ((utf8Len (sd "a") : ℚ) - (utf8Len (sd "b") : ℚ)) / (utf8Len (sd "a") : ℚ) * 100,
          reduction_bytes := (utf8Len (sd "a") : ℤ) - (utf8Len (sd "b") : ℤ) } :=
  ⟨by decide, c10_get_stats.1 (sd "a") (sd "b") (by decide)⟩

/-! ## C1: the single six-character hash-class check -/

/-- C1 (counterexample): with ultra-aggressive mode disabled, a class
attribute that is a single alphanumeric token of exactly 6 characters is
not dropped: `clean_class_attribute` keeps `abcdef` in full, refuting the
claim that the whole attribute is treated as noise in that mode. -/
theorem c1_counterexample :
    pyIsAlnum (sd "abcdef") = true ∧ (sd "abcdef").length = 6 ∧
      clean_class_attribute false (.str (sd "abcdef")) = some (sd "abcdef") := by
  refine ⟨by decide, by decide, by decide⟩

/-- C1 (amended): with ultra-aggressive mode enabled, a class attribute
consisting of exactly one alphanumeric token of exactly 6 characters is
treated as noise by `clean_class_attribute` (via
`should_remove_single_hash_class`) and dropped entirely. -/
theorem c1_hash_class_dropped (s : Str) (h6 : s.length = 6) (ha : pyIsAlnum s = true) :
    clean_class_attribute true (.str s) = none := by
  have hne : s ≠ [] := by
    intro h
    rw [h] at h6
    simp at h6
  have hnoWs : ∀ c ∈ s, isWsChar c = false := by
    have ha' := ha
    simp only [pyIsAlnum, Bool.and_eq_true, List.all_eq_true] at ha'
    intro c hc
    exact not_ws_of_alnum c (ha'.2 c hc)
  have hstrip : pyStrip s = s := pyStrip_eq_self s hnoWs
  have hnoSpace : (' ' : Char) ∉ s := by
    intro hmem
    have := hnoWs ' ' hmem
    simp [isWsChar] at this
  have hrem : should_remove_single_hash_class true (.str s) = true := by
    unfold should_remove_single_hash_class
    simp only [Bool.not_true, Bool.false_eq_true, if_false, pyStr, hstrip]
    rw [if_neg (by simp [hnoSpace])]
    simp [h6, ha]
  unfold clean_class_attribute
  rw [if_neg (by simp [attrTruthy, hne]), if_pos hrem]

/-- Witness for C1 (amended) at the hash-shaped token `dYpyED`. -/
theorem c1_witness :
    (sd "dYpyED").length = 6 ∧ pyIsAlnum (sd "dYpyED") = true ∧
      clean_class_attribute true (.str (sd "dYpyED")) = none :=
  ⟨by decide, by decide, c1_hash_class_dropped (sd "dYpyED") (by decide) (by decide)⟩

/-! ## C2: oversized data-URI images -/

lemma startsWithL_self_append (p r : Str) : startsWithL p (p ++ r) = true := by
  induction p with
  | nil => rfl
  | cons c cs ih => simp [startsWithL, ih]

/-- C2 (amended): the structural variant's `process_element` omits an `img`
element, and with it all its descendants, whenever its `src` attribute is a
string starting with `data:` of length greater than 1000; the parent state
is returned unchanged. -/
theorem c2_structural_img_omitted (cfg : SConfig) (attrs : List (Str × AttrVal))
    (children : SoupList) (ps : PState) (s : Str)
    (hsrc : getAttr attrs (sd "src") = some (.str s))
    (hdata : startsWithL (sd "data:") s = true) (hlen : 1000 < s.length) :
    processElementS cfg (.tag (sd "img") attrs children) ps = ps := by
  have hrem : should_remove_img attrs = true := by
    unfold should_remove_img
    rw [hsrc]
    simp [hdata, hlen]
  have hnotRemove : sd "img" ∉ REMOVE_TAGS := by decide
  simp only [processElementS, hrem]
  simp [hnotRemove]

lemma longSrc_data : startsWithL (sd "data:") longSrc = true :=
  startsWithL_self_append (sd "data:") (List.replicate 996 'a')

lemma longSrc_len : 1000 < longSrc.length := by
  simp only [longSrc, List.length_append, List.length_replicate]
  decide

/-- C2 (counterexample): the semantic-mapping variant
(`HTMLToXMLConverter.process_element`) has no oversized-image check: an
`img` whose `src` is a data URI of length 1001 is emitted as an output
element rather than omitted, refuting the claim for that variant. -/
theorem c2_counterexample :
    startsWithL (sd "data:") longSrc = true ∧ 1000 < longSrc.length ∧
      (processElementX ⟨false, []⟩
        (.tag (sd "img") [(sd "src", .str longSrc)] .nil) ⟨none, []⟩).children.length = 1 := by
  refine ⟨longSrc_data, longSrc_len, ?_⟩
  have h1 : sd "img" ∉ REMOVE_TAGS := by decide
  have h2 : sd "img" ∉ UNWRAP_TAGS := by decide
  simp [processElementX, h1, h2]

/-- Witness for C2 (amended): the structural variant drops the same
element. -/
theorem c2_witness :
    getAttr [(sd "src", AttrVal.str longSrc)] (sd "src") = some (.str longSrc) ∧
      processElementS ⟨false, false⟩
        (.tag (sd "img") [(sd "src", .str longSrc)] .nil) ⟨none, []⟩ = ⟨none, []⟩ :=
  ⟨rfl, c2_structural_img_omitted ⟨false, false⟩ [(sd "src", .str longSrc)] .nil ⟨none, []⟩
    longSrc rfl longSrc_data longSrc_len⟩

/-! ## C7: the explicit empty text on childless elements -/

/-- C7 (amended): in the semantic-mapping variant, an element whose input
node has no children at all (so it can produce neither output children nor
text) is emitted with its text explicitly set to the empty string, provided
its tag is neither removed nor unwrapped. -/
theorem c7_childless_empty_text (cfg : XConfig) (name : Str)
    (attrs : List (Str × AttrVal)) (ps : PState)
    (hrem : name ∉ REMOVE_TAGS) (hunw : name ∉ UNWRAP_TAGS) :
    processElementX cfg (.tag name attrs .nil) ps =
      { ps with children := ps.children ++
          [{ tag := convert_tag_name name, attrs := xFinalAttrs cfg name attrs,
             text := some [], children := [] }] } := by
  simp [processElementX, hrem, hunw, processChildrenX, SoupList.isNil, textFalsy]

/-- Witness for C7 (amended) at a childless paragraph. -/
theorem c7_witness :
    sd "p" ∉ REMOVE_TAGS ∧ sd "p" ∉ UNWRAP_TAGS ∧
      processElementX ⟨false, []⟩ (.tag (sd "p") [] .nil) ⟨none, []⟩ =
        ⟨none, [{ tag := convert_tag_name (sd "p"),
                  attrs := xFinalAttrs ⟨false, []⟩ (sd "p") [],
                  text := some [], children := [] }]⟩ :=
  ⟨by decide, by decide,
   c7_childless_empty_text ⟨false, []⟩ (sd "p") [] ⟨none, []⟩ (by decide) (by decide)⟩

/-- C7 (counterexample): an element that has input children which all
vanish (here a `div` whose only child is a removed `script`) produces no
output children and acquires no text, yet its text is left absent (`none`),
not set to the empty string: the claim's condition "produced no child
elements in the output and acquired no text" does not match the code's
"has no input children". -/
theorem c7_counterexample :
    ∃ el : XmlElem,
      processElementX ⟨false, []⟩
        (.tag (sd "div") [] (.cons (.tag (sd "script") [] .nil) .nil)) ⟨none, []⟩
        = ⟨none, [el]⟩ ∧ el.children = [] ∧ el.text = none :=
  ⟨⟨sd "section", [], none, []⟩, rfl, rfl, rfl⟩

/-! ## Facts about the output attribute dict (`etSet`) -/

lemma mem_etSet_of_ne (acc : List (Str × Str)) (k v : Str) (p : Str × Str)
    (hp : p ∈ acc) (hne : ¬ p.1 = k) : p ∈ etSet acc k v := by
  unfold etSet
  split
  · exact List.mem_map.mpr ⟨p, hp, by simp [hne]⟩
  · exact List.mem_append_left _ hp

lemma etSet_mem_self (acc : List (Str × Str)) (k v : Str) : (k, v) ∈ etSet acc k v := by
  unfold etSet
  by_cases h : hasKey acc k
  · rw [if_pos h]
    obtain ⟨q, hq, hqk⟩ := List.any_eq_true.mp h
    exact List.mem_map.mpr ⟨q, hq, by simp [hqk]⟩
  · rw [if_neg h]
    exact List.mem_append_right _ (by simp)

lemma any_key_map_etSet (acc : List (Str × Str)) (k v k' : Str) :
    (acc.map (fun p => if p.1 == k then (k, v) else p)).any (fun p => p.1 == k')
      = acc.any (fun p => p.1 == k') := by
  induction acc with
  | nil => rfl
  | cons p rest ih =>
    simp only [List.map_cons, List.any_cons]
    rw [ih]
    congr 1
    by_cases hp : (p.1 == k) = true
    · have hpk : p.1 = k := eq_of_beq hp
      simp [hp, hpk]
    · simp [hp]

lemma hasKey_etSet_ne (acc : List (Str × Str)) (k v k' : Str) (hne : ¬ k = k') :
    hasKey (etSet acc k v) k' = hasKey acc k' := by
  unfold etSet
  by_cases h : hasKey acc k
  · rw [if_pos h]
    exact any_key_map_etSet acc k v k'
  · rw [if_neg h]
    unfold hasKey
    rw [List.any_append]
    simp [hne]

/-! ## C9: the explicit empty href on anchors -/

lemma processElementX_tag_eq (cfg : XConfig) (name : Str) (attrs : List (Str × AttrVal))
    (children : SoupList) (ps : PState)
    (hrem : name ∉ REMOVE_TAGS) (hunw : name ∉ UNWRAP_TAGS) :
    processElementX cfg (.tag name attrs children) ps =
      { ps with children := ps.children ++ [xBuiltElem cfg name attrs children] } := by
  simp [processElementX, hrem, hunw, xBuiltElem]

lemma foldX_no_href (cfg : XConfig) :
    ∀ (attrs : List (Str × AttrVal)) (acc : List (Str × Str)),
      hasKey acc (sd "href") = false →
      (∀ v, (sd "href", v) ∈ attrs → pyStrip (pyStrAttr v) = []) →
      hasKey (attrs.foldl (procAttrStepX cfg) acc) (sd "href") = false
  | [], _, hacc, _ => hacc
  | (k, v) :: rest, acc, hacc, h => by
    rw [List.foldl_cons]
    apply foldX_no_href cfg rest _ ?_ (fun w hw => h w (by simp [hw]))
    unfold procAttrStepX
    by_cases hk : k = sd "href"
    · subst hk
      have hsv : pyStrip (pyStrAttr v) = [] := h v (by simp)
      simp [hsv, hacc]
    · split
      · split
        · rw [hasKey_etSet_ne _ _ _ _ hk]
          exact hacc
        · exact hacc
      · exact hacc

/-- C9: in the semantic-mapping variant, an anchor element for which no
`href` attribute survives filtering (every `href` value present strips to
the empty string, which also covers absence) is emitted with an explicit
empty `href` attribute. -/
theorem c9_empty_href (cfg : XConfig) (attrs : List (Str × AttrVal))
    (children : SoupList) (ps : PState)
    (h : ∀ v, (sd "href", v) ∈ attrs → pyStrip (pyStrAttr v) = []) :
    ∃ el : XmlElem, processElementX cfg (.tag (sd "a") attrs children) ps =
      { ps with children := ps.children ++ [el] } ∧ (sd "href", ([] : Str)) ∈ el.attrs := by
  have hrem : sd "a" ∉ REMOVE_TAGS := by decide
  have hunw : sd "a" ∉ UNWRAP_TAGS := by decide
  refine ⟨xBuiltElem cfg (sd "a") attrs children,
    processElementX_tag_eq cfg (sd "a") attrs children ps hrem hunw, ?_⟩
  show (sd "href", ([] : Str)) ∈ xFinalAttrs cfg (sd "a") attrs
  have hnok : hasKey (attrs.foldl (procAttrStepX cfg) []) (sd "href") = false :=
    foldX_no_href cfg attrs [] rfl h
  unfold xFinalAttrs
  rw [if_pos (by simp [hnok])]
  exact etSet_mem_self _ _ _

/-- Witness for C9 at `<a>Link</a>` with no attributes. -/
theorem c9_witness :
    (∀ v, (sd "href", v) ∈ ([] : List (Str × AttrVal)) → pyStrip (pyStrAttr v) = []) ∧
      ∃ el : XmlElem,
        processElementX ⟨false, []⟩ (.tag (sd "a") [] (.cons (.text (sd "Link")) .nil))
          ⟨none, []⟩ = ⟨none, [el]⟩ ∧ (sd "href", ([] : Str)) ∈ el.attrs := by
  refine ⟨by simp, ?_⟩
  obtain ⟨el, heq, hmem⟩ := c9_empty_href ⟨false, []⟩ []
    (.cons (.text (sd "Link")) .nil) ⟨none, []⟩ (by simp)
  exact ⟨el, by simpa using heq, hmem⟩

/-! ## C5: preservation of `id="x"` -/

lemma preserve_id_any (cfg : SConfig) (tagName : Str) :
    should_preserve_attribute cfg (sd "id") (.str (sd "x")) tagName = true := by
  unfold should_preserve_attribute
  have h1 : startsWithL (sd "aria-") (pyLower (sd "id")) = false := by decide
  have h2 : (pyLower (sd "id") == sd "class") = false := by decide
  have h3 : reactTabsIdMatch (pyStr (.str (sd "x"))) = false := by decide
  have h4 : CORE_ATTRS.contains (pyLower (sd "id")) = true := by decide
  have h4m : pyLower (sd "id") ∈ CORE_ATTRS := by decide
  simp [h1, h2, h3, h4, h4m]

lemma simplify_false_of_id (cfg : SConfig) (attrs : List (Str × AttrVal))
    (children : SoupList) (h : (sd "id", AttrVal.str (sd "x")) ∈ attrs) :
    should_simplify_span cfg attrs children = false := by
  unfold should_simplify_span
  have hany : attrs.any (fun p => should_preserve_attribute cfg p.1 p.2 (sd "span")) = true :=
    List.any_eq_true.mpr ⟨(sd "id", .str (sd "x")), h, preserve_id_any cfg (sd "span")⟩
  by_cases hs : cfg.simplify_spans <;> simp [hs, hany]

lemma processElementS_tag_eq (cfg : SConfig) (name : Str) (attrs : List (Str × AttrVal))
    (children : SoupList) (ps : PState)
    (hrem : name ∉ REMOVE_TAGS)
    (himg : ¬(name = sd "img" ∧ should_remove_img attrs = true))
    (hspan : ¬(name = sd "span" ∧ should_simplify_span cfg attrs children = true)) :
    processElementS cfg (.tag name attrs children) ps =
      { ps with children := ps.children ++ [sBuiltElem cfg name attrs children] } := by
  simp [processElementS, hrem, himg, hspan, sBuiltElem]

lemma foldS_pres_id (cfg : SConfig) (tagName : Str) :
    ∀ (rest : List (Str × AttrVal)) (acc : List (Str × Str)),
      (sd "id", sd "x") ∈ acc → (∀ p ∈ rest, ¬ p.1 = sd "id") →
      (sd "id", sd "x") ∈ rest.foldl (procAttrStepS cfg tagName) acc
  | [], _, hacc, _ => hacc
  | (k, v) :: rest, acc, hacc, h => by
    rw [List.foldl_cons]
    apply foldS_pres_id cfg tagName rest _ ?_ (fun p hp => h p (by simp [hp]))
    have hk : ¬ k = sd "id" := by simpa using h (k, v) (by simp)
    unfold procAttrStepS
    split
    · split
      · split
        · split
          · exact mem_etSet_of_ne _ _ _ _ hacc (by decide)
          · exact hacc
        · exact hacc
      · split
        · exact mem_etSet_of_ne _ _ _ _ hacc (fun hh => hk hh.symm)
        · exact hacc
    · exact hacc

lemma foldS_id_mem (cfg : SConfig) (tagName : Str) :
    ∀ (attrs : List (Str × AttrVal)) (acc : List (Str × Str)),
      (sd "id", AttrVal.str (sd "x")) ∈ attrs → (attrs.map Prod.fst).Nodup →
      (sd "id", sd "x") ∈ attrs.foldl (procAttrStepS cfg tagName) acc
  | [], _, hmem, _ => absurd hmem (by simp)
  | (k, v) :: rest, acc, hmem, hnd => by
    rw [List.foldl_cons]
    have hnd' := hnd
    rw [List.map_cons, List.nodup_cons] at hnd'
    rcases List.mem_cons.mp hmem with heq | hrest
    · obtain ⟨hk, hv⟩ := Prod.mk.injEq .. ▸ heq.symm
      subst hk
      subst hv
      have hstep : procAttrStepS cfg tagName acc (sd "id", AttrVal.str (sd "x")) =
          etSet acc (sd "id") (sd "x") := by
        unfold procAttrStepS
        rw [if_pos (preserve_id_any cfg tagName)]
        rw [if_neg (by decide)]
        rw [show pyStrip (pyStrAttr (AttrVal.str (sd "x"))) = sd "x" from by decide]
        rw [if_pos (by decide)]
      rw [hstep]
      apply foldS_pres_id cfg tagName rest _ (etSet_mem_self _ _ _)
      intro p hp hpk
      exact hnd'.1 (List.mem_map.mpr ⟨p, hp, hpk⟩)
    · exact foldS_id_mem cfg tagName rest _ hrest hnd'.2

lemma preserveX_id (cfg : XConfig) : should_preserve_attr cfg (sd "id") = true := by
  unfold should_preserve_attr
  have hmem : sd "id" ∈ xPreserve cfg := List.mem_append_left _ (by decide)
  have : (xPreserve cfg).contains (sd "id") = true := List.elem_iff.mpr hmem
  rw [this]
  rfl

lemma foldX_pres_id (cfg : XConfig) :
    ∀ (rest : List (Str × AttrVal)) (acc : List (Str × Str)),
      (sd "id", sd "x") ∈ acc → (∀ p ∈ rest, ¬ p.1 = sd "id") →
      (sd "id", sd "x") ∈ rest.foldl (procAttrStepX cfg) acc
  | [], _, hacc, _ => hacc
  | (k, v) :: rest, acc, hacc, h => by
    rw [List.foldl_cons]
    apply foldX_pres_id cfg rest _ ?_ (fun p hp => h p (by simp [hp]))
    have hk : ¬ k = sd "id" := by simpa using h (k, v) (by simp)
    unfold procAttrStepX
    split
    · split
      · exact mem_etSet_of_ne _ _ _ _ hacc (fun hh => hk hh.symm)
      · exact hacc
    · exact hacc

lemma foldX_id_mem (cfg : XConfig) :
    ∀ (attrs : List (Str × AttrVal)) (acc : List (Str × Str)),
      (sd "id", AttrVal.str (sd "x")) ∈ attrs → (attrs.map Prod.fst).Nodup →
      (sd "id", sd "x") ∈ attrs.foldl (procAttrStepX cfg) acc
  | [], _, hmem, _ => absurd hmem (by simp)
  | (k, v) :: rest, acc, hmem, hnd => by
    rw [List.foldl_cons]
    have hnd' := hnd
    rw [List.map_cons, List.nodup_cons] at hnd'
    rcases List.mem_cons.mp hmem with heq | hrest
    · obtain ⟨hk, hv⟩ := Prod.mk.injEq .. ▸ heq.symm
      subst hk
      subst hv
      have hstep : procAttrStepX cfg acc (sd "id", AttrVal.str (sd "x")) =
          etSet acc (sd "id") (sd "x") := by
        unfold procAttrStepX
        rw [if_pos (preserveX_id cfg)]
        rw [show pyStrip (pyStrAttr (AttrVal.str (sd "x"))) = sd "x" from by decide]
        rw [if_pos (by decide)]
      rw [hstep]
      apply foldX_pres_id cfg rest _ (etSet_mem_self _ _ _)
      intro p hp hpk
      exact hnd'.1 (List.mem_map.mpr ⟨p, hp, hpk⟩)
    · exact foldX_id_mem cfg rest _ hrest hnd'.2

lemma xFinalAttrs_id_mem (cfg : XConfig) (name : Str) (attrs : List (Str × AttrVal))
    (hid : (sd "id", AttrVal.str (sd "x")) ∈ attrs) (hnd : (attrs.map Prod.fst).Nodup) :
    (sd "id", sd "x") ∈ xFinalAttrs cfg name attrs := by
  have h1 : (sd "id", sd "x") ∈ attrs.foldl (procAttrStepX cfg) [] :=
    foldX_id_mem cfg attrs [] hid hnd
  simp only [xFinalAttrs]
  split
  · exact mem_etSet_of_ne _ _ _ _ h1 (by decide)
  · exact h1

/-- C5 (amended): an input element carrying `id="x"` keeps that attribute on
its emitted output element in both variants, provided the element is emitted
at all: its tag must not be in the removal set, it must not be an oversized
data-URI `img` (structural variant), and its tag must not be in the unwrap
set (semantic-mapping variant).  Elements failing those conditions are
dropped or unwrapped wholesale, `id` included. -/
theorem c5_id_preserved :
    (∀ (cfg : SConfig) (name : Str) (attrs : List (Str × AttrVal)) (children : SoupList)
        (ps : PState),
      (sd "id", AttrVal.str (sd "x")) ∈ attrs → (attrs.map Prod.fst).Nodup →
      name ∉ REMOVE_TAGS → ¬(name = sd "img" ∧ should_remove_img attrs = true) →
      ∃ el : XmlElem, processElementS cfg (.tag name attrs children) ps =
        { ps with children := ps.children ++ [el] } ∧ (sd "id", sd "x") ∈ el.attrs) ∧
    (∀ (cfg : XConfig) (name : Str) (attrs : List (Str × AttrVal)) (children : SoupList)
        (ps : PState),
      (sd "id", AttrVal.str (sd "x")) ∈ attrs → (attrs.map Prod.fst).Nodup →
      name ∉ REMOVE_TAGS → name ∉ UNWRAP_TAGS →
      ∃ el : XmlElem, processElementX cfg (.tag name attrs children) ps =
        { ps with children := ps.children ++ [el] } ∧ (sd "id", sd "x") ∈ el.attrs) := by
  constructor
  · intro cfg name attrs children ps hid hnd hrem himg
    have hspan : ¬(name = sd "span" ∧ should_simplify_span cfg attrs children = true) := by
      rintro ⟨-, hsimp⟩
      rw [simplify_false_of_id cfg attrs children hid] at hsimp
      exact Bool.false_ne_true hsimp
    refine ⟨sBuiltElem cfg name attrs children,
      processElementS_tag_eq cfg name attrs children ps hrem himg hspan, ?_⟩
    show (sd "id", sd "x") ∈ processAttrsS cfg name attrs
    exact foldS_id_mem cfg name attrs [] hid hnd
  · intro cfg name attrs children ps hid hnd hrem hunw
    exact ⟨xBuiltElem cfg name attrs children,
      processElementX_tag_eq cfg name attrs children ps hrem hunw,
      xFinalAttrs_id_mem cfg name attrs hid hnd⟩

/-- Witness for C5 (amended) at `<div id="x">` in both variants. -/
theorem c5_witness :
    ((sd "id", AttrVal.str (sd "x")) ∈ [(sd "id", AttrVal.str (sd "x"))] ∧
      (([(sd "id", AttrVal.str (sd "x"))] : List (Str × AttrVal)).map Prod.fst).Nodup ∧
      sd "div" ∉ REMOVE_TAGS ∧
      ¬(sd "div" = sd "img" ∧ should_remove_img [(sd "id", AttrVal.str (sd "x"))] = true) ∧
      sd "div" ∉ UNWRAP_TAGS) ∧
    (∃ el : XmlElem, processElementS ⟨true, true⟩
        (.tag (sd "div") [(sd "id", AttrVal.str (sd "x"))] .nil) ⟨none, []⟩ =
        ⟨none, [el]⟩ ∧ (sd "id", sd "x") ∈ el.attrs) ∧
    (∃ el : XmlElem, processElementX ⟨false, []⟩
        (.tag (sd "div") [(sd "id", AttrVal.str (sd "x"))] .nil) ⟨none, []⟩ =
        ⟨none, [el]⟩ ∧ (sd "id", sd "x") ∈ el.attrs) := by
  refine ⟨⟨by simp, by simp, by decide, by decide, by decide⟩, ?_, ?_⟩
  · obtain ⟨el, heq, hmem⟩ := c5_id_preserved.1 ⟨true, true⟩ (sd "div")
      [(sd "id", AttrVal.str (sd "x"))] .nil ⟨none, []⟩ (by simp) (by simp)
      (by decide) (by decide)
    exact ⟨el, by simpa using heq, hmem⟩
  · obtain ⟨el, heq, hmem⟩ := c5_id_preserved.2 ⟨false, []⟩ (sd "div")
      [(sd "id", AttrVal.str (sd "x"))] .nil ⟨none, []⟩ (by simp) (by simp)
      (by decide) (by decide)
    exact ⟨el, by simpa using heq, hmem⟩

/-- C5 (counterexample): an element with `id="x"` whose tag is in the
removal set is dropped wholesale: `<script id="x">` produces no output at
all in the semantic-mapping variant, so no element with `id="x"` appears —
refuting the claim that the `id` attribute survives for every element and
configuration. -/
theorem c5_counterexample :
    processElementX ⟨false, []⟩ (.tag (sd "script") [(sd "id", .str (sd "x"))] .nil)
      ⟨none, []⟩ = ⟨none, []⟩ := rfl

/-! ## C6: duplicate meta keys -/

lemma lastOpt_cons_ne {α : Type} (a : α) (l : List α) (h : l ≠ []) :
    lastOpt (a :: l) = lastOpt l := by
  cases l with
  | nil => exact absurd rfl h
  | cons b t => rfl

lemma lastOpt_ne_nil {α : Type} (l : List α) (h : l ≠ []) : ∃ c, lastOpt l = some c := by
  induction l with
  | nil => exact absurd rfl h
  | cons a t ih =>
    cases t with
    | nil => exact ⟨a, rfl⟩
    | cons b s =>
      obtain ⟨c, hc⟩ := ih (by simp)
      exact ⟨c, by rw [lastOpt_cons_ne a _ (by simp), hc]⟩

lemma find?_map_replace (m : List (Str × AttrVal)) (k : Str) (v : AttrVal)
    (h : m.any (fun p => p.1 == k) = true) :
    (m.map (fun p => if p.1 == k then (k, v) else p)).find? (fun p => p.1 == k)
      = some (k, v) := by
  induction m with
  | nil => simp at h
  | cons p rest ih =>
    rw [List.map_cons]
    by_cases hp : (p.1 == k) = true
    · rw [if_pos hp]
      rw [List.find?_cons_of_pos _ (by simp)]
    · rw [if_neg hp]
      rw [List.find?_cons_of_neg _ (by simp [hp])]
      apply ih
      cases hq : (p.1 == k) with
      | true => exact absurd hq hp
      | false =>
        rw [List.any_cons, hq, Bool.false_or] at h
        exact h

lemma find?_map_replace_ne (m : List (Str × AttrVal)) (k' : Str) (v : AttrVal) (k : Str)
    (hne : ¬ k' = k) :
    (m.map (fun p => if p.1 == k' then (k', v) else p)).find? (fun p => p.1 == k)
      = m.find? (fun p => p.1 == k) := by
  induction m with
  | nil => rfl
  | cons p rest ih =>
    rw [List.map_cons]
    by_cases hp : (p.1 == k') = true
    · have hpk : (p.1 == k) = false := by
        have := eq_of_beq hp
        simp [this, hne]
      rw [if_pos hp]
      rw [List.find?_cons_of_neg _ (by simp [hne]), List.find?_cons_of_neg _ (by simp [hpk]), ih]
    · rw [if_neg hp]
      by_cases hk : (p.1 == k) = true
      · rw [@List.find?_cons_of_pos _ (fun q => q.1 == k) p _ hk,
          @List.find?_cons_of_pos _ (fun q => q.1 == k) p _ hk]
      · rw [@List.find?_cons_of_neg _ (fun q => q.1 == k) p _ hk,
          @List.find?_cons_of_neg _ (fun q => q.1 == k) p _ hk, ih]

lemma lookup_dictInsert_self (m : List (Str × AttrVal)) (k : Str) (v : AttrVal) :
    lookupMeta (dictInsert m k v) k = some v := by
  unfold dictInsert lookupMeta
  by_cases h : m.any (fun p => p.1 == k)
  · rw [if_pos h, find?_map_replace m k v h]
  · rw [if_neg h, List.find?_append]
    have hnone : m.find? (fun p => p.1 == k) = none :=
      List.find?_eq_none.mpr (fun x hx =>
        (List.any_eq_false.mp (Bool.eq_false_iff.mpr h)) x hx)
    rw [hnone]
    simp

lemma lookup_dictInsert_ne (m : List (Str × AttrVal)) (k' : Str) (v : AttrVal) (k : Str)
    (hne : ¬ k' = k) :
    lookupMeta (dictInsert m k' v) k = lookupMeta m k := by
  unfold dictInsert lookupMeta
  by_cases h : m.any (fun p => p.1 == k')
  · rw [if_pos h, find?_map_replace_ne m k' v k hne]
  · rw [if_neg h, List.find?_append]
    have : List.find? (fun p => p.1 == k) [(k', v)] = none := by simp [hne]
    rw [this, Option.or_none]

lemma lookup_foldl_metaStep (k : Str) :
    ∀ (metas : List SoupNode) (m : List (Str × AttrVal)),
      lookupMeta (metas.foldl metaStep m) k =
        (match lastOpt (relContents k metas) with
         | some c => some c
         | none => lookupMeta m k)
  | [], m => by simp [relContents, lastOpt]
  | x :: xs, m => by
    rw [List.foldl_cons, lookup_foldl_metaStep k xs (metaStep m x)]
    cases hx : entryFor k x with
    | none =>
      have hrc : relContents k (x :: xs) = relContents k xs := by
        unfold relContents
        rw [List.filterMap_cons, hx]
      rw [hrc]
      have hstep : lookupMeta (metaStep m x) k = lookupMeta m k := by
        unfold metaStep
        cases hkc : metaKeyContent (nodeAttrs x) with
        | none => rfl
        | some kc =>
          have hne : ¬ kc.1 = k := by
            intro he
            unfold entryFor at hx
            rw [hkc] at hx
            simp [he] at hx
          exact lookup_dictInsert_ne m kc.1 kc.2 k hne
      rw [hstep]
    | some c =>
      have hrc : relContents k (x :: xs) = c :: relContents k xs := by
        unfold relContents
        rw [List.filterMap_cons, hx]
      have hkc : ∃ kc, metaKeyContent (nodeAttrs x) = some kc ∧ kc.1 = k ∧ kc.2 = c := by
        unfold entryFor at hx
        cases hm : metaKeyContent (nodeAttrs x) with
        | none =>
          rw [hm] at hx
          simp at hx
        | some kc =>
          rw [hm] at hx
          by_cases he : kc.1 = k
          · refine ⟨kc, rfl, he, ?_⟩
            simp [he] at hx
            exact hx
          · simp [he] at hx
      obtain ⟨kc, hm, hk1, hk2⟩ := hkc
      have hstep : metaStep m x = dictInsert m k c := by
        unfold metaStep
        rw [hm]
        show dictInsert m kc.1 kc.2 = dictInsert m k c
        rw [hk1, hk2]
      rw [hrc, hstep]
      cases hxs : relContents k xs with
      | nil =>
        simp only [lastOpt]
        exact lookup_dictInsert_self m k c
      | cons d ds =>
        rw [lastOpt_cons_ne c _ (by simp)]
        obtain ⟨e, he⟩ := lastOpt_ne_nil (d :: ds) (by simp)
        rw [he]

/-- C6 (amended): in `extract_metadata`, when two or more `<meta>` elements
in the head share the same name-or-property key (with truthy content), the
value recorded for that key is the content of the LAST such occurrence in
document order — later duplicates silently overwrite earlier ones. -/
theorem c6_last_meta_wins (doc : SoupList) (h : SoupNode) (k : Str)
    (hh : (findAllIn (sd "head") doc).head? = some h)
    (hne : relContents k (findAllIn (sd "meta") (nodeChildrenL h)) ≠ []) :
    lookupMeta (extract_metadata doc) k =
      lastOpt (relContents k (findAllIn (sd "meta") (nodeChildrenL h))) := by
  unfold extract_metadata
  rw [hh]
  simp only []
  rw [lookup_foldl_metaStep k]
  obtain ⟨c, hc⟩ := lastOpt_ne_nil _ hne
  rw [hc]

/-- C6 (counterexample): with two metas `name="a"` of contents `1` then `2`,
the recorded value is `2` (the last), not `1` (the first) — refuting
first-occurrence-wins. -/
theorem c6_counterexample :
    relContents (sd "a") (findAllIn (sd "meta") (nodeChildrenL headC6)) =
      [.str (sd "1"), .str (sd "2")] ∧
    lookupMeta (extract_metadata docC6) (sd "a") = some (.str (sd "2")) := ⟨rfl, rfl⟩

/-- Witness for C6 (amended) at the same two-meta head. -/
theorem c6_witness :
    relContents (sd "a") (findAllIn (sd "meta") (nodeChildrenL headC6)) ≠ [] ∧
      lookupMeta (extract_metadata docC6) (sd "a") =
        lastOpt (relContents (sd "a") (findAllIn (sd "meta") (nodeChildrenL headC6))) := by
  have hne : relContents (sd "a") (findAllIn (sd "meta") (nodeChildrenL headC6)) ≠ [] := by
    rw [show relContents (sd "a") (findAllIn (sd "meta") (nodeChildrenL headC6)) =
      [.str (sd "1"), .str (sd "2")] from rfl]
    simp
  exact ⟨hne, c6_last_meta_wins docC6 headC6 (sd "a") rfl hne⟩

/-! ## C4: normalization of attached text -/

lemma hasWsRun_cons (c : Char) (l : Str) :
    hasWsRun (c :: l) = ((isWsChar c && headWs l) || hasWsRun l) := by
  cases l <;> simp [hasWsRun, headWs]

lemma headWs_append (a b : Str) (ha : a ≠ []) : headWs (a ++ b) = headWs a := by
  cases a with
  | nil => exact absurd rfl ha
  | cons c t => rfl

lemma lastWs_cons_ne (c : Char) (l : Str) (h : l ≠ []) : lastWs (c :: l) = lastWs l := by
  cases l with
  | nil => exact absurd rfl h
  | cons d t => rfl

lemma lastWs_append (a b : Str) (hb : b ≠ []) : lastWs (a ++ b) = lastWs b := by
  induction a with
  | nil => rfl
  | cons c t ih =>
    rw [List.cons_append, lastWs_cons_ne c (t ++ b) (by simp [hb]), ih]

lemma hasWsRun_append : ∀ (a b : Str), hasWsRun a = false → hasWsRun b = false →
    (lastWs a = false ∨ headWs b = false) → hasWsRun (a ++ b) = false
  | [], _, _, hnb, _ => hnb
  | [c], b, _, hnb, hbd => by
    rw [List.cons_append, List.nil_append, hasWsRun_cons]
    have hcb : (isWsChar c && headWs b) = false := by
      rcases hbd with hl | hr
      · have hlc : lastWs [c] = isWsChar c := rfl
        rw [hlc] at hl
        rw [hl, Bool.false_and]
      · rw [hr, Bool.and_false]
    rw [hcb, hnb]
    rfl
  | c :: d :: t, b, hna, hnb, hbd => by
    have hna1 : (isWsChar c && isWsChar d) = false := by
      rw [hasWsRun_cons] at hna
      exact (Bool.or_eq_false_iff.mp hna).1
    have hna2 : hasWsRun (d :: t) = false := by
      rw [hasWsRun_cons] at hna
      exact (Bool.or_eq_false_iff.mp hna).2
    have hbd' : lastWs (d :: t) = false ∨ headWs b = false := by
      rcases hbd with hl | hr
      · rw [lastWs_cons_ne c (d :: t) (by simp)] at hl
        exact Or.inl hl
      · exact Or.inr hr
    have hrun : hasWsRun ((d :: t) ++ b) = false := hasWsRun_append (d :: t) b hna2 hnb hbd'
    show hasWsRun (c :: d :: (t ++ b)) = false
    rw [hasWsRun_cons]
    have h1 : (isWsChar c && headWs (d :: (t ++ b))) = (isWsChar c && isWsChar d) := rfl
    rw [h1, hna1, Bool.false_or]
    exact hrun

lemma escOkB_cons_eq (c : Char) (l : Str) :
    escOkB (c :: l) =
      (if (c == '<' || c == '>') = true then false
       else if (c == '&') = true then
         (startsWithL (sd "amp;") l || startsWithL (sd "lt;") l ||
          startsWithL (sd "gt;") l) && escOkB l
       else escOkB l) := rfl

lemma escOkB_cons_other (c : Char) (l : Str) (h1 : (c == '<') = false)
    (h2 : (c == '>') = false) (h3 : (c == '&') = false) :
    escOkB (c :: l) = escOkB l := by
  rw [escOkB_cons_eq, if_neg (by simp [h1, h2]), if_neg (by simp [h3])]

lemma startsWithL_mono (p : Str) : ∀ (l m : Str), startsWithL p l = true →
    startsWithL p (l ++ m) = true := by
  induction p with
  | nil => intro l m _; rfl
  | cons pc pt ih =>
    intro l m h
    cases l with
    | nil => simp [startsWithL] at h
    | cons c ct =>
      rw [List.cons_append]
      unfold startsWithL at h ⊢
      rw [Bool.and_eq_true] at h ⊢
      exact ⟨h.1, ih ct m h.2⟩

lemma escEntityPre_append (t b : Str)
    (h : (startsWithL (sd "amp;") t || startsWithL (sd "lt;") t ||
          startsWithL (sd "gt;") t) = true) :
    (startsWithL (sd "amp;") (t ++ b) || startsWithL (sd "lt;") (t ++ b) ||
     startsWithL (sd "gt;") (t ++ b)) = true := by
  simp only [Bool.or_eq_true] at h ⊢
  rcases h with (h | h) | h
  · exact Or.inl (Or.inl (startsWithL_mono _ t b h))
  · exact Or.inl (Or.inr (startsWithL_mono _ t b h))
  · exact Or.inr (startsWithL_mono _ t b h)

lemma escOkB_append : ∀ (a b : Str), escOkB a = true → escOkB b = true →
    escOkB (a ++ b) = true
  | [], _, _, hb => hb
  | c :: t, b, ha, hb => by
    rw [List.cons_append, escOkB_cons_eq]
    rw [escOkB_cons_eq] at ha
    by_cases h1 : (c == '<' || c == '>') = true
    · rw [if_pos h1] at ha
      exact absurd ha (by simp)
    · rw [if_neg h1] at ha ⊢
      by_cases h2 : (c == '&') = true
      · rw [if_pos h2] at ha ⊢
        rw [Bool.and_eq_true] at ha ⊢
        exact ⟨escEntityPre_append t b ha.1, escOkB_append t b ha.2 hb⟩
      · rw [if_neg h2] at ha ⊢
        exact escOkB_append t b ha hb

lemma escapeHtml_cons_eq (c : Char) (t : Str) :
    escapeHtml (c :: t) =
      (if (c == '&') = true then '&' :: 'a' :: 'm' :: 'p' :: ';' :: escapeHtml t
       else if (c == '<') = true then '&' :: 'l' :: 't' :: ';' :: escapeHtml t
       else if (c == '>') = true then '&' :: 'g' :: 't' :: ';' :: escapeHtml t
       else c :: escapeHtml t) := rfl

lemma escOkB_escapeHtml : ∀ (l : Str), escOkB (escapeHtml l) = true
  | [] => rfl
  | c :: t => by
    have ih := escOkB_escapeHtml t
    rw [escapeHtml_cons_eq]
    by_cases h1 : (c == '&') = true
    · rw [if_pos h1, escOkB_cons_eq, if_neg (by decide), if_pos (by decide),
        Bool.and_eq_true]
      constructor
      · have : startsWithL (sd "amp;") ('a' :: 'm' :: 'p' :: ';' :: escapeHtml t) = true := by
          show ((('a' : Char) == 'a') && _) = true
          rw [Bool.and_eq_true]
          exact ⟨by decide, by
            show ((('m' : Char) == 'm') && _) = true
            rw [Bool.and_eq_true]
            exact ⟨by decide, by
              show ((('p' : Char) == 'p') && _) = true
              rw [Bool.and_eq_true]
              exact ⟨by decide, by
                show (((';' : Char) == ';') && startsWithL [] (escapeHtml t)) = true
                rw [Bool.and_eq_true]
                exact ⟨by decide, rfl⟩⟩⟩⟩
        rw [this]
        rfl
      · rw [escOkB_cons_other 'a' _ (by decide) (by decide) (by decide),
            escOkB_cons_other 'm' _ (by decide) (by decide) (by decide),
            escOkB_cons_other 'p' _ (by decide) (by decide) (by decide),
            escOkB_cons_other ';' _ (by decide) (by decide) (by decide)]
        exact ih
    · rw [if_neg h1]
      by_cases h2 : (c == '<') = true
      · rw [if_pos h2, escOkB_cons_eq, if_neg (by decide), if_pos (by decide),
          Bool.and_eq_true]
        constructor
        · have : startsWithL (sd "lt;") ('l' :: 't' :: ';' :: escapeHtml t) = true := by
            show ((('l' : Char) == 'l') && _) = true
            rw [Bool.and_eq_true]
            exact ⟨by decide, by
              show ((('t' : Char) == 't') && _) = true
              rw [Bool.and_eq_true]
              exact ⟨by decide, by
                show (((';' : Char) == ';') && startsWithL [] (escapeHtml t)) = true
                rw [Bool.and_eq_true]
                exact ⟨by decide, rfl⟩⟩⟩
          rw [this]
          simp
        · rw [escOkB_cons_other 'l' _ (by decide) (by decide) (by decide),
              escOkB_cons_other 't' _ (by decide) (by decide) (by decide),
              escOkB_cons_other ';' _ (by decide) (by decide) (by decide)]
          exact ih
      · rw [if_neg h2]
        by_cases h3 : (c == '>') = true
        · rw [if_pos h3, escOkB_cons_eq, if_neg (by decide), if_pos (by decide),
            Bool.and_eq_true]
          constructor
          · have : startsWithL (sd "gt;") ('g' :: 't' :: ';' :: escapeHtml t) = true := by
              show ((('g' : Char) == 'g') && _) = true
              rw [Bool.and_eq_true]
              exact ⟨by decide, by
                show ((('t' : Char) == 't') && _) = true
                rw [Bool.and_eq_true]
                exact ⟨by decide, by
                  show (((';' : Char) == ';') && startsWithL [] (escapeHtml t)) = true
                  rw [Bool.and_eq_true]
                  exact ⟨by decide, rfl⟩⟩⟩
            rw [this]
            simp
          · rw [escOkB_cons_other 'g' _ (by decide) (by decide) (by decide),
                escOkB_cons_other 't' _ (by decide) (by decide) (by decide),
                escOkB_cons_other ';' _ (by decide) (by decide) (by decide)]
            exact ih
        · rw [if_neg h3, escOkB_cons_other c _ (by simpa using h2) (by simpa using h3)
            (by simpa using h1)]
          exact ih

lemma escapeHtml_ne_nil (l : Str) (h : l ≠ []) : escapeHtml l ≠ [] := by
  cases l with
  | nil => exact absurd rfl h
  | cons c t =>
    rw [escapeHtml_cons_eq]
    by_cases h1 : (c == '&') = true
    · rw [if_pos h1]
      simp
    · rw [if_neg h1]
      by_cases h2 : (c == '<') = true
      · rw [if_pos h2]
        simp
      · rw [if_neg h2]
        by_cases h3 : (c == '>') = true
        · rw [if_pos h3]
          simp
        · rw [if_neg h3]
          simp

lemma headWs_escapeHtml (l : Str) : headWs (escapeHtml l) = headWs l := by
  cases l with
  | nil => rfl
  | cons c t =>
    rw [escapeHtml_cons_eq]
    by_cases h1 : (c == '&') = true
    · rw [if_pos h1, show c = '&' from eq_of_beq h1]
      rfl
    · rw [if_neg h1]
      by_cases h2 : (c == '<') = true
      · rw [if_pos h2, show c = '<' from eq_of_beq h2]
        rfl
      · rw [if_neg h2]
        by_cases h3 : (c == '>') = true
        · rw [if_pos h3, show c = '>' from eq_of_beq h3]
          rfl
        · rw [if_neg h3]
          rfl

lemma lastWs_cons5_ne (c1 c2 c3 c4 c5 : Char) (X : Str) (h : X ≠ []) :
    lastWs (c1 :: c2 :: c3 :: c4 :: c5 :: X) = lastWs X := by
  rw [lastWs_cons_ne _ _ (by simp), lastWs_cons_ne _ _ (by simp),
      lastWs_cons_ne _ _ (by simp), lastWs_cons_ne _ _ (by simp),
      lastWs_cons_ne _ _ h]

lemma lastWs_cons4_ne (c1 c2 c3 c4 : Char) (X : Str) (h : X ≠ []) :
    lastWs (c1 :: c2 :: c3 :: c4 :: X) = lastWs X := by
  rw [lastWs_cons_ne _ _ (by simp), lastWs_cons_ne _ _ (by simp),
      lastWs_cons_ne _ _ (by simp), lastWs_cons_ne _ _ h]

lemma lastWs_escapeHtml : ∀ (l : Str), lastWs (escapeHtml l) = lastWs l
  | [] => rfl
  | c :: t => by
    have ih := lastWs_escapeHtml t
    rw [escapeHtml_cons_eq]
    by_cases htne : t = []
    · subst htne
      by_cases h1 : (c == '&') = true
      · rw [if_pos h1, show c = '&' from eq_of_beq h1]
        rfl
      · rw [if_neg h1]
        by_cases h2 : (c == '<') = true
        · rw [if_pos h2, show c = '<' from eq_of_beq h2]
          rfl
        · rw [if_neg h2]
          by_cases h3 : (c == '>') = true
          · rw [if_pos h3, show c = '>' from eq_of_beq h3]
            rfl
          · rw [if_neg h3]
            rfl
    · have hne : escapeHtml t ≠ [] := escapeHtml_ne_nil t htne
      by_cases h1 : (c == '&') = true
      · rw [if_pos h1, lastWs_cons5_ne _ _ _ _ _ _ hne, ih, lastWs_cons_ne _ _ htne]
      · rw [if_neg h1]
        by_cases h2 : (c == '<') = true
        · rw [if_pos h2, lastWs_cons4_ne _ _ _ _ _ hne, ih, lastWs_cons_ne _ _ htne]
        · rw [if_neg h2]
          by_cases h3 : (c == '>') = true
          · rw [if_pos h3, lastWs_cons4_ne _ _ _ _ _ hne, ih, lastWs_cons_ne _ _ htne]
          · rw [if_neg h3, lastWs_cons_ne _ _ hne, ih, lastWs_cons_ne _ _ htne]

lemma hasWsRun_escapeHtml : ∀ (l : Str), hasWsRun l = false →
    hasWsRun (escapeHtml l) = false
  | [], _ => rfl
  | c :: t, h => by
    have hc : (isWsChar c && headWs t) = false ∧ hasWsRun t = false :=
      Bool.or_eq_false_iff.mp (by rw [← hasWsRun_cons]; exact h)
    have ih := hasWsRun_escapeHtml t hc.2
    rw [escapeHtml_cons_eq]
    by_cases h1 : (c == '&') = true
    · rw [if_pos h1]
      rw [hasWsRun_cons, hasWsRun_cons, hasWsRun_cons, hasWsRun_cons, hasWsRun_cons]
      rw [headWs_escapeHtml t]
      simp [ih, show isWsChar '&' = false from by decide,
        show isWsChar 'a' = false from by decide, show isWsChar 'm' = false from by decide,
        show isWsChar 'p' = false from by decide, show isWsChar ';' = false from by decide]
    · rw [if_neg h1]
      by_cases h2 : (c == '<') = true
      · rw [if_pos h2]
        rw [hasWsRun_cons, hasWsRun_cons, hasWsRun_cons, hasWsRun_cons]
        rw [headWs_escapeHtml t]
        simp [ih, show isWsChar '&' = false from by decide,
          show isWsChar 'l' = false from by decide, show isWsChar 't' = false from by decide,
          show isWsChar ';' = false from by decide]
      · rw [if_neg h2]
        by_cases h3 : (c == '>') = true
        · rw [if_pos h3]
          rw [hasWsRun_cons, hasWsRun_cons, hasWsRun_cons, hasWsRun_cons]
          rw [headWs_escapeHtml t]
          simp [ih, show isWsChar '&' = false from by decide,
            show isWsChar 'g' = false from by decide,
            show isWsChar 't' = false from by decide,
            show isWsChar ';' = false from by decide]
        · rw [if_neg h3]
          rw [hasWsRun_cons, headWs_escapeHtml t, hc.1, ih]
          rfl

lemma collapseWsAux_cons_eq (b : Bool) (c : Char) (t : Str) :
    collapseWsAux b (c :: t) =
      (if isWsChar c = true then
        (if b = true then collapseWsAux true t else ' ' :: collapseWsAux true t)
       else c :: collapseWsAux false t) := rfl

lemma headWs_collapseWsAux_true : ∀ (l : Str), headWs (collapseWsAux true l) = false
  | [] => rfl
  | c :: t => by
    rw [collapseWsAux_cons_eq]
    by_cases hc : isWsChar c = true
    · rw [if_pos hc, if_pos rfl]
      exact headWs_collapseWsAux_true t
    · rw [if_neg hc]
      show isWsChar c = false
      exact Bool.eq_false_iff.mpr hc

lemma hasWsRun_collapseWsAux : ∀ (l : Str) (b : Bool),
    hasWsRun (collapseWsAux b l) = false
  | [], _ => rfl
  | c :: t, b => by
    rw [collapseWsAux_cons_eq]
    by_cases hc : isWsChar c = true
    · rw [if_pos hc]
      cases b with
      | true =>
        rw [if_pos rfl]
        exact hasWsRun_collapseWsAux t true
      | false =>
        rw [if_neg (by simp)]
        rw [hasWsRun_cons, headWs_collapseWsAux_true t, hasWsRun_collapseWsAux t true]
        rfl
    · rw [if_neg hc]
      rw [hasWsRun_cons, hasWsRun_collapseWsAux t false, Bool.eq_false_iff.mpr hc]
      rfl

lemma hasWsRun_append_right_of : ∀ (a b : Str), hasWsRun (a ++ b) = false →
    hasWsRun b = false
  | [], _, h => h
  | c :: t, b, h => by
    apply hasWsRun_append_right_of t b
    rw [List.cons_append, hasWsRun_cons] at h
    exact (Bool.or_eq_false_iff.mp h).2

lemma hasWsRun_dropWhileWs (l : Str) (h : hasWsRun l = false) :
    hasWsRun (l.dropWhile isWsChar) = false := by
  apply hasWsRun_append_right_of (l.takeWhile isWsChar)
  rw [List.takeWhile_append_dropWhile]
  exact h

lemma headWs_dropWhileWs : ∀ (l : Str), headWs (l.dropWhile isWsChar) = false
  | [] => rfl
  | c :: t => by
    rw [List.dropWhile_cons]
    by_cases hc : isWsChar c = true
    · rw [if_pos hc]
      exact headWs_dropWhileWs t
    · rw [if_neg hc]
      exact Bool.eq_false_iff.mpr hc

lemma dropTrailingWs_cons (c : Char) (t : Str) :
    dropTrailingWs (c :: t) =
      (match dropTrailingWs t with
       | [] => if isWsChar c then [] else [c]
       | r => c :: r) := rfl

lemma headWs_dropTrailingWs_ne (l : Str) (h : dropTrailingWs l ≠ []) :
    headWs (dropTrailingWs l) = headWs l := by
  cases l with
  | nil => exact absurd rfl h
  | cons c t =>
    rw [dropTrailingWs_cons] at h ⊢
    cases hr : dropTrailingWs t with
    | nil =>
      rw [hr] at h
      by_cases hc : isWsChar c = true
      · exfalso
        apply h
        show (if isWsChar c = true then [] else [c]) = []
        rw [if_pos hc]
      · show headWs (if isWsChar c = true then [] else [c]) = headWs (c :: t)
        rw [if_neg hc]
        rfl
    | cons d r' =>
      show headWs (c :: d :: r') = headWs (c :: t)
      rfl

lemma lastWs_dropTrailingWs : ∀ (l : Str), lastWs (dropTrailingWs l) = false
  | [] => rfl
  | c :: t => by
    have ih := lastWs_dropTrailingWs t
    rw [dropTrailingWs_cons]
    cases hr : dropTrailingWs t with
    | nil =>
      show lastWs (if isWsChar c = true then [] else [c]) = false
      by_cases hc : isWsChar c = true
      · rw [if_pos hc]
        rfl
      · rw [if_neg hc]
        show isWsChar c = false
        exact Bool.eq_false_iff.mpr hc
    | cons d r' =>
      show lastWs (c :: d :: r') = false
      rw [lastWs_cons_ne c _ (by simp), ← hr]
      exact ih

lemma hasWsRun_dropTrailingWs : ∀ (l : Str), hasWsRun l = false →
    hasWsRun (dropTrailingWs l) = false
  | [], _ => rfl
  | c :: t, h => by
    have hc1 : (isWsChar c && headWs t) = false ∧ hasWsRun t = false :=
      Bool.or_eq_false_iff.mp (by rw [← hasWsRun_cons]; exact h)
    have ih := hasWsRun_dropTrailingWs t hc1.2
    rw [dropTrailingWs_cons]
    cases hr : dropTrailingWs t with
    | nil =>
      show hasWsRun (if isWsChar c = true then [] else [c]) = false
      by_cases hc : isWsChar c = true
      · rw [if_pos hc]
        rfl
      · rw [if_neg hc]
        rfl
    | cons d r' =>
      show hasWsRun (c :: d :: r') = false
      rw [hasWsRun_cons]
      have hrun : hasWsRun (d :: r') = false := by rw [← hr]; exact ih
      have hhead : headWs (d :: r') = headWs t := by
        rw [← hr]
        exact headWs_dropTrailingWs_ne t (by rw [hr]; simp)
      rw [show (isWsChar c && headWs (d :: r')) = (isWsChar c && headWs t) from by
        rw [hhead]]
      rw [hc1.1, hrun]
      rfl

lemma pyStrip_textFacts (l : Str) (h : hasWsRun l = false) :
    hasWsRun (pyStrip l) = false ∧ headWs (pyStrip l) = false ∧
      lastWs (pyStrip l) = false := by
  unfold pyStrip
  refine ⟨hasWsRun_dropTrailingWs _ (hasWsRun_dropWhileWs l h), ?_,
    lastWs_dropTrailingWs _⟩
  cases hq : dropTrailingWs (l.dropWhile isWsChar) with
  | nil => rfl
  | cons d r =>
    rw [← hq, headWs_dropTrailingWs_ne _ (by rw [hq]; simp)]
    exact headWs_dropWhileWs l

lemma textProp_clean_text (s : Str) : textProp (clean_text s) = true := by
  unfold clean_text
  by_cases hs : s.isEmpty = true
  · rw [if_pos hs]
    rfl
  · rw [if_neg hs]
    have hcol : hasWsRun (collapseWsAux false s) = false := hasWsRun_collapseWsAux s false
    obtain ⟨hr, hh, hl⟩ := pyStrip_textFacts (collapseWsAux false s) hcol
    unfold textProp
    rw [hasWsRun_escapeHtml _ hr, headWs_escapeHtml, lastWs_escapeHtml, hh, hl,
        escOkB_escapeHtml]
    rfl

lemma textProp_parts (t : Str) (h : textProp t = true) :
    hasWsRun t = false ∧ headWs t = false ∧ lastWs t = false ∧ escOkB t = true := by
  unfold textProp at h
  simp only [Bool.and_eq_true, Bool.not_eq_true'] at h
  exact ⟨h.1.1.1, h.1.1.2, h.1.2, h.2⟩

lemma textProp_join (o t : Str) (ho : textProp o = true) (hone : o ≠ [])
    (ht : textProp t = true) (htne : t ≠ []) : textProp (o ++ ' ' :: t) = true := by
  obtain ⟨ho1, ho2, ho3, ho4⟩ := textProp_parts o ho
  obtain ⟨ht1, ht2, ht3, ht4⟩ := textProp_parts t ht
  unfold textProp
  have hb : hasWsRun (o ++ ' ' :: t) = false := by
    apply hasWsRun_append o (' ' :: t) ho1 ?_ (Or.inl ho3)
    rw [hasWsRun_cons, ht1, ht2, Bool.and_false, Bool.false_or]
  have hh : headWs (o ++ ' ' :: t) = false := by
    rw [headWs_append _ _ hone]
    exact ho2
  have hl : lastWs (o ++ ' ' :: t) = false := by
    rw [lastWs_append _ _ (by simp), lastWs_cons_ne _ _ htne]
    exact ht3
  have he : escOkB (o ++ ' ' :: t) = true := by
    apply escOkB_append o _ ho4
    rw [escOkB_cons_other ' ' t (by decide) (by decide) (by decide)]
    exact ht4
  rw [hb, hh, hl, he]
  rfl

lemma textFieldOk_joinTextSep (old : Option Str) (t : Str)
    (hold : textFieldOk old = true) (ht : textProp t = true) (htne : t ≠ []) :
    textFieldOk (joinTextSep old t) = true := by
  cases old with
  | none => exact ht
  | some o =>
    show textFieldOk (if (!o.isEmpty) = true then some (o ++ ' ' :: t) else some t) = true
    by_cases hoe : o.isEmpty = true
    · rw [if_neg (by simp [hoe])]
      exact ht
    · rw [if_pos (by simp [hoe])]
      show textProp (o ++ ' ' :: t) = true
      exact textProp_join o t hold (by simpa using hoe) ht htne

lemma pstateOk_init : PStateOkP ⟨none, []⟩ := ⟨rfl, by simp⟩

lemma processElementX_text_eq (cfg : XConfig) (s : Str) (ps : PState) :
    processElementX cfg (.text s) ps =
      (if (!(clean_text s).isEmpty) = true then
        { ps with text := joinTextSep ps.text (clean_text s) }
       else ps) := rfl

lemma processElementX_tag_eq2 (cfg : XConfig) (name : Str) (attrs : List (Str × AttrVal))
    (children : SoupList) (ps : PState) :
    processElementX cfg (.tag name attrs children) ps =
      (if REMOVE_TAGS.contains name = true then ps
       else if UNWRAP_TAGS.contains name = true then processChildrenX cfg children ps
       else { ps with children := ps.children ++ [xBuiltElem cfg name attrs children] }) :=
  rfl

lemma processChildrenX_cons_eq (cfg : XConfig) (c : SoupNode) (rest : SoupList)
    (ps : PState) :
    processChildrenX cfg (.cons c rest) ps =
      processChildrenX cfg rest (processElementX cfg c ps) := rfl

mutual
theorem procX_textOk_aux (cfg : XConfig) : ∀ (n : SoupNode) (ps : PState),
    PStateOkP ps → PStateOkP (processElementX cfg n ps)
  | .text s, ps, h => by
    rw [processElementX_text_eq]
    by_cases ht : (clean_text s).isEmpty = true
    · rw [if_neg (by simp [ht])]
      exact h
    · rw [if_pos (by simp [ht])]
      refine ⟨?_, h.2⟩
      exact textFieldOk_joinTextSep ps.text (clean_text s) h.1 (textProp_clean_text s)
        (by simpa using ht)
  | .tag name attrs children, ps, h => by
    rw [processElementX_tag_eq2]
    by_cases h1 : REMOVE_TAGS.contains name = true
    · rw [if_pos h1]
      exact h
    · rw [if_neg h1]
      by_cases h2 : UNWRAP_TAGS.contains name = true
      · rw [if_pos h2]
        exact procXList_textOk_aux cfg children ps h
      · rw [if_neg h2]
        have hsub : PStateOkP (processChildrenX cfg children ⟨none, []⟩) :=
          procXList_textOk_aux cfg children ⟨none, []⟩ pstateOk_init
        refine ⟨h.1, ?_⟩
        intro e he
        rcases List.mem_append.mp he with hel | her
        · exact h.2 e hel
        · have heq : e = xBuiltElem cfg name attrs children := by simpa using her
          subst heq
          show ElemOk (xBuiltElem cfg name attrs children)
          unfold xBuiltElem
          refine ElemOk.intro _ _ _ _ ?_ ?_
          · split
            · rfl
            · exact hsub.1
          · exact hsub.2
theorem procXList_textOk_aux (cfg : XConfig) : ∀ (l : SoupList) (ps : PState),
    PStateOkP ps → PStateOkP (processChildrenX cfg l ps)
  | .nil, _, h => h
  | .cons c rest, ps, h => by
    rw [processChildrenX_cons_eq]
    exact procXList_textOk_aux cfg rest _ (procX_textOk_aux cfg c ps h)
end

/-- C4 (amended): invariant of the semantic-mapping variant — every text
value attached to an output node by `process_element` is already
normalized: no raw whitespace runs, no whitespace at the edges, and the
XML-illegal characters `&`, `<`, `>` appear only in escaped form.  (The
structural variant does not satisfy the escaping half; see the
counterexample.) -/
theorem c4_semantic_text_normalized : ∀ (cfg : XConfig) (n : SoupNode) (ps : PState),
    PStateOkP ps → PStateOkP (processElementX cfg n ps) :=
  fun cfg n ps h => procX_textOk_aux cfg n ps h

/-- Witness for C4 (amended) at a text node containing `&` and a whitespace
run. -/
theorem c4_witness :
    PStateOkP ⟨none, []⟩ ∧
      PStateOkP (processElementX ⟨false, []⟩ (.text (sd "a &  b")) ⟨none, []⟩) :=
  ⟨pstateOk_init,
   c4_semantic_text_normalized ⟨false, []⟩ (.text (sd "a &  b")) ⟨none, []⟩ pstateOk_init⟩

/-- C4 (counterexample): the structural variant's `aggressive_text_clean`
does not escape XML-illegal characters: processing the text node `a & b`
attaches the text `a & b` with a raw, un-escaped `&` — refuting the
invariant for that variant. -/
theorem c4_counterexample :
    processElementS ⟨false, false⟩ (.text (sd "a & b")) ⟨none, []⟩ =
      ⟨some (sd "a & b"), []⟩ ∧ escOkB (sd "a & b") = false :=
  ⟨rfl, by decide⟩
